import Mathlib

/-!
A verification development for the `stateful` finite-state-machine engine

The engine lives in `src/stateMachine.go`: `AddTransition`, `GetTransitionRules`,
`GetAllStates`, `Run` and `GetAvailableTransitions`.  Those five functions are embedded
below line by line.  The types and helpers they use (`State`, `States`, `Transition`,
`TransitionRule`, `TransitionRules.Find`, the error constructors and the `Stateful`
interface) are declared in other files of the package; they are modelled from the
specification and marked as such.

Go mutates the entity through an interface value; here the entity is a value of a type
`σ` that is threaded through `Run`, and `Run` also records the calls it makes to its
collaborators, so that "is never invoked" is a statement about that record.

A state set is a Go slice.  `AddTransition`, `Run` and `GetAvailableTransitions` store the
state sets or read their elements and write nothing to them, so they are embedded on the
elements, a list of states.  `GetAllStates` calls `append` on a rule's source slice, which
writes behind that slice when it has spare capacity; it is embedded on slices and on the
memory that holds their backing arrays, and returns that memory as it leaves it.
-/

namespace stateful

/-! ## Data model -/

/-- Modelled from the spec: the `State` type (declared outside `stateMachine.go`).
A state is a comparable identifier, and one reserved value is the wildcard; the spec's
design notes ask for a tagged variant `Concrete(State) | Wildcard`. -/
inductive State where
  | wildcard : State
  | concrete (id : String) : State
  deriving DecidableEq, Repr

/-- Modelled from the spec: `State.IsWildCard`, the test used by `GetAllStates`; it holds
of the reserved wildcard value and of no concrete state. -/
def State.IsWildCard : State → Bool
  | .wildcard => true
  | .concrete _ => false

/-- Modelled from the spec: `States`, a State Set, is an ordered sequence of states in
which duplicates are permitted and which may contain the wildcard. -/
abbrev States := List State

/-- Modelled from the spec (section 4.2): a State Set allows a candidate state if the
candidate is a member of the set or the set contains the wildcard state. -/
def States.allows (ss : States) (candidate : State) : Bool :=
  ss.contains candidate || ss.contains State.wildcard

/-- Modelled from the spec: a `Transition` is a handle on a unit of domain logic; two
transitions are the same when they are the same handle.  The logic a handle denotes is
given separately (see `Logic`), so that one handle cannot stand for two functions. -/
structure Transition where
  handle : Nat
  deriving DecidableEq, Repr

/-- The rule built by `AddTransition` (`stateMachine.go`, lines 19-23):
`TransitionRule{SourceStates, Transition, DestinationStates}`. -/
structure TransitionRule where
  SourceStates : States
  Transition : Transition
  DestinationStates : States
  deriving DecidableEq, Repr

/-- Modelled from the spec: `TransitionRule.IsAllowedToRun`, the source check of step 2 of
`Run`: the rule's source State Set allows the state. -/
def TransitionRule.IsAllowedToRun (transitionRule : TransitionRule) (state : State) : Bool :=
  States.allows transitionRule.SourceStates state

/-- Modelled from the spec: `TransitionRule.IsAllowedToTransfer`, the destination check of
step 4 of `Run`: the rule's destination State Set allows the state (same predicate). -/
def TransitionRule.IsAllowedToTransfer (transitionRule : TransitionRule) (state : State) :
    Bool :=
  States.allows transitionRule.DestinationStates state

/-- Modelled from the spec: `TransitionRules`, the append-only ordered rule table. -/
abbrev TransitionRules := List TransitionRule

/-- Modelled from the spec (section 4.1): `TransitionRules.Find` returns the first rule, in
insertion order, whose transition handle equals the given handle, or nothing. -/
def TransitionRules.Find (trs : TransitionRules) (transition : Transition) :
    Option TransitionRule :=
  match trs with
  | [] => none
  | transitionRule :: rest =>
    if transitionRule.Transition = transition then some transitionRule
    else TransitionRules.Find rest transition

/-- Modelled from the spec: `Transitions`, the sequence of handles returned by
`GetAvailableTransitions`. -/
abbrev Transitions := List Transition

/-- The `StateMachine` struct (`stateMachine.go`, lines 5-8): the entity and the rule
table.  Go holds the entity by reference; here the machine holds its current value. -/
structure StateMachine (σ : Type) where
  StatefulObject : σ
  transitionRules : TransitionRules
  deriving DecidableEq

/-- Modelled from the spec (section 7): the values of Go's `error` that occur around `Run`.
The three engine kinds carry what `Run` passes to their constructors: the transition; the
machine and the rule; the rejected state.  `foreign e` is an error value of a type `ε`
that the integrator declares.  The transition logic and the entity's `SetState` return
values of this one type as well: a collaborator may hand back an engine-kind error, and
`Run` returns whatever it is handed. -/
inductive Error (σ : Type) (ε : Type) where
  | TransitionRuleNotFoundError (transition : Transition) : Error σ ε
  | CannotRunFromStateError (stateMachine : StateMachine σ)
      (transitionRule : TransitionRule) : Error σ ε
  | CannotTransferToStateError (state : State) : Error σ ε
  | foreign (e : ε) : Error σ ε
  deriving DecidableEq

/-- Modelled from the spec (section 6): the `Stateful` capability the engine requires of
the entity.  `State` is a side-effect-free read of the one state the entity owns.
`SetState` commits a new state and may fail: it returns the entity after the call and the
error it reports, if any.  When it reports no error the new state has been committed
(`commits`); when it reports an error the spec leaves the entity's state to the entity
(unchanged, or an entity-defined recovery state), so nothing is assumed.
`ε` is the type of the integrator's own error values. -/
class Stateful (σ : Type) (ε : outParam Type) where
  State : σ → stateful.State
  SetState : σ → stateful.State → σ × Option (Error σ ε)
  commits : ∀ (o : σ) (s : stateful.State), (SetState o s).2 = none → State (SetState o s).1 = s

/-- Modelled from the spec: the logic behind each transition handle, a function from the
transition arguments (of type `α`) to a candidate state and an error.  Whatever else the
logic does lies outside the entity's state storage (spec, section 7) and is not modelled;
that it was invoked is kept in the call record of `Run`. -/
abbrev Logic (σ : Type) (ε : Type) (α : Type) := Transition → α → State × Option (Error σ ε)

/-- A call that `Run` makes to one of its collaborators. -/
inductive Call (α : Type) where
  | State : Call α
  | Transition (transition : Transition) (transitionArguments : α) : Call α
  | SetState (state : State) : Call α
  deriving DecidableEq, Repr

/-- What a call of `Run` leaves behind: the error it returns (`none` for `nil`), the
machine with the entity as it is after the call, and the collaborator calls made, in
order. -/
structure RunResult (σ : Type) (ε : Type) (α : Type) where
  err : Option (Error σ ε)
  sm : StateMachine σ
  calls : List (Call α)
  deriving DecidableEq

/-- A Go slice of states: a window of `len` cells on the backing array `array`, starting
at `offset`, with `cap` cells available from there. -/
structure Slice where
  array : Nat
  offset : Nat
  len : Nat
  cap : Nat
  deriving DecidableEq, Repr

/-- The memory that holds the backing arrays of the state slices: the cell at an index of
an array. -/
abbrev Memory := Nat → Nat → State

/-- The elements of a slice, as a list. -/
def Slice.read (s : Slice) (mem : Memory) : States :=
  (List.range s.len).map fun i => mem s.array (s.offset + i)

/-- The memory after `values` have been stored in an array from index `start` on. -/
def Memory.write (mem : Memory) (array : Nat) (start : Nat) (values : List State) : Memory :=
  fun a i =>
    if a = array ∧ start ≤ i ∧ i < start + values.length then
      values.getD (i - start) State.wildcard
    else mem a i

/-- Go's `append(s, values...)`, as `GetAllStates` uses it: the elements of the slice it
returns and the memory after the call.  When the new length fits the capacity of `s` the
values are written into the backing array of `s`, right behind its elements; otherwise
the result lives in a new array and the memory is as before. -/
def Slice.append (s : Slice) (mem : Memory) (values : List State) : States × Memory :=
  (s.read mem ++ values,
    if s.len + values.length ≤ s.cap then mem.write s.array (s.offset + s.len) values
    else mem)

/-- A rule as the table holds it: its two state sets are slices. -/
structure SliceRule where
  SourceStates : Slice
  Transition : Transition
  DestinationStates : Slice
  deriving DecidableEq, Repr

/-- The rule with the elements its slices hold in a memory. -/
def SliceRule.read (rule : SliceRule) (mem : Memory) : TransitionRule :=
  { SourceStates := rule.SourceStates.read mem
    Transition := rule.Transition
    DestinationStates := rule.DestinationStates.read mem }

/-- The rule table as the machine holds it, on slices. -/
abbrev SliceRules := List SliceRule

/-- The rule table with the elements its slices hold in a memory. -/
def SliceRules.read (rules : SliceRules) (mem : Memory) : TransitionRules :=
  rules.map fun rule => rule.read mem

variable {σ ε α : Type}

/-! ## The engine (`stateMachine.go`) -/

/-- `AddTransition` (lines 12-25): appends the rule to the table. -/
def StateMachine.AddTransition (sm : StateMachine σ) (transition : Transition)
    (sourceStates : States) (destinationStates : States) : StateMachine σ :=
  { sm with
    transitionRules := sm.transitionRules ++
      [{ SourceStates := sourceStates
         Transition := transition
         DestinationStates := destinationStates }] }

/-- `GetTransitionRules` (lines 28-30). -/
def StateMachine.GetTransitionRules (sm : StateMachine σ) : TransitionRules :=
  sm.transitionRules

/-- The body of the inner loop of `GetAllStates` (lines 39-44) on the pair
`(states, keys)`: a state already in `keys` is skipped; otherwise it is recorded in
`keys`, and appended to `states` unless it is the wildcard. -/
def GetAllStates.visit (acc : States × List State) (state : State) : States × List State :=
  if acc.2.contains state then acc
  else
    (if !state.IsWildCard then acc.1 ++ [state] else acc.1, state :: acc.2)

/-- The body of the outer loop of `GetAllStates` (lines 37-46) on the accumulated
`(states, keys)` and the memory: `append(SourceStates, DestinationStates...)` is evaluated
once, which may write the destination states behind the source slice, and the inner loop
runs over the elements of its result. -/
def GetAllStates.visitRule (acc : (States × List State) × Memory)
    (transitionRule : SliceRule) : (States × List State) × Memory :=
  ((Slice.append transitionRule.SourceStates acc.2
      (transitionRule.DestinationStates.read acc.2)).1.foldl GetAllStates.visit acc.1,
    (Slice.append transitionRule.SourceStates acc.2
      (transitionRule.DestinationStates.read acc.2)).2)

/-- `GetAllStates` (lines 33-48).  The receiver enters through its rule table, as the
slices it holds; the result is the returned states and the memory after the call. -/
def StateMachine.GetAllStates (transitionRules : SliceRules) (mem : Memory) :
    States × Memory :=
  ((transitionRules.foldl GetAllStates.visitRule (([], []), mem)).1.1,
    (transitionRules.foldl GetAllStates.visitRule (([], []), mem)).2)

/-- `Run` (lines 52-79). -/
def StateMachine.Run [Stateful σ ε] (logic : Logic σ ε α) (sm : StateMachine σ)
    (transition : Transition) (transitionArguments : α) : RunResult σ ε α :=
  match TransitionRules.Find sm.transitionRules transition with
  | none =>
    { err := some (Error.TransitionRuleNotFoundError transition), sm := sm, calls := [] }
  | some transitionRule =>
    if !transitionRule.IsAllowedToRun (Stateful.State sm.StatefulObject) then
      { err := some (Error.CannotRunFromStateError sm transitionRule), sm := sm,
        calls := [Call.State] }
    else
      match logic transition transitionArguments with
      | (_, some err) =>
        { err := some err, sm := sm,
          calls := [Call.State, Call.Transition transition transitionArguments] }
      | (newState, none) =>
        if !transitionRule.IsAllowedToTransfer newState then
          { err := some (Error.CannotTransferToStateError newState), sm := sm,
            calls := [Call.State, Call.Transition transition transitionArguments] }
        else
          match Stateful.SetState sm.StatefulObject newState with
          | (o, some err) =>
            { err := some err, sm := { sm with StatefulObject := o },
              calls := [Call.State, Call.Transition transition transitionArguments,
                Call.SetState newState] }
          | (o, none) =>
            { err := none, sm := { sm with StatefulObject := o },
              calls := [Call.State, Call.Transition transition transitionArguments,
                Call.SetState newState] }

/-- The loop of `GetAvailableTransitions` (lines 83-87) from a given accumulator. -/
def GetAvailableTransitions.loop (current : State) :
    TransitionRules → Transitions → Transitions
  | [], transitions => transitions
  | transitionRule :: rest, transitions =>
    if transitionRule.IsAllowedToRun current then
      GetAvailableTransitions.loop current rest (transitions ++ [transitionRule.Transition])
    else
      GetAvailableTransitions.loop current rest transitions

/-- `GetAvailableTransitions` (lines 81-89). -/
def StateMachine.GetAvailableTransitions [Stateful σ ε] (sm : StateMachine σ) : Transitions :=
  GetAvailableTransitions.loop (Stateful.State sm.StatefulObject) sm.transitionRules []

/-! ## Reference definitions and example fixtures -/

/-- The rule `transitionRule` is the first rule registered for `transition` in the table:
it carries that handle and no rule before it does. -/
def IsFirstRuleFor (trs : TransitionRules) (transition : Transition)
    (transitionRule : TransitionRule) : Prop :=
  ∃ before after : TransitionRules,
    trs = before ++ transitionRule :: after ∧
    transitionRule.Transition = transition ∧
    ∀ r ∈ before, r.Transition ≠ transition

/-- A document that stores whatever state it is given; its `SetState` never fails. -/
structure Document where
  state : State
  deriving DecidableEq, Repr

instance : Stateful Document String where
  State d := d.state
  SetState _ s := ({ state := s }, none)
  commits := fun _ _ _ => rfl

/-- A document on failing storage: its `SetState` always reports "storage failure" and
leaves the document in the recovery state "corrupt". -/
structure FlakyDocument where
  state : State
  deriving DecidableEq, Repr

instance : Stateful FlakyDocument String where
  State d := d.state
  SetState _ _ := ({ state := State.concrete "corrupt" }, some (Error.foreign "storage failure"))
  commits := fun _ _ h => by simp at h

/-- A document that refuses every state: its `SetState` keeps the state and reports the
engine's own `CannotTransferToState` error for the state it was given. -/
structure PickyDocument where
  state : State
  deriving DecidableEq, Repr

instance : Stateful PickyDocument String where
  State d := d.state
  SetState d s := (d, some (Error.CannotTransferToStateError s))
  commits := fun _ _ h => by simp at h

/-- Handle of the example transition `Publish`. -/
def Publish : Transition := { handle := 0 }

/-- Handle of the example transition `Archive`. -/
def Archive : Transition := { handle := 1 }

/-- Handle of the example transition `Review`. -/
def Review : Transition := { handle := 2 }

/-- Handle of the example transition `Unpublish`, which the examples never register. -/
def Unpublish : Transition := { handle := 3 }

/-- The logic of the example transitions: `Publish` returns "published", `Archive`
returns "deleted" (outside its declared destination), `Review` fails with "no reviewer". -/
def exampleLogic : Logic σ String String := fun transition _ =>
  if transition = Publish then (State.concrete "published", none)
  else if transition = Archive then (State.concrete "deleted", none)
  else if transition = Review then (State.concrete "reviewed", some (Error.foreign "no reviewer"))
  else (State.concrete "draft", none)

/-- The rule table of the examples. -/
def exampleRules : TransitionRules :=
  [ { SourceStates := [State.concrete "draft"], Transition := Publish,
      DestinationStates := [State.concrete "published"] },
    { SourceStates := [State.wildcard], Transition := Archive,
      DestinationStates := [State.concrete "archived"] },
    { SourceStates := [State.concrete "draft"], Transition := Review,
      DestinationStates := [State.concrete "approved"] } ]

/-- A machine over a draft document with the example rules. -/
def draftMachine : StateMachine Document :=
  { StatefulObject := { state := State.concrete "draft" }, transitionRules := exampleRules }

/-- A machine over a published document with the example rules. -/
def publishedMachine : StateMachine Document :=
  { StatefulObject := { state := State.concrete "published" },
    transitionRules := exampleRules }

/-- A machine over a draft document on failing storage, with the example rules. -/
def flakyMachine : StateMachine FlakyDocument :=
  { StatefulObject := { state := State.concrete "draft" }, transitionRules := exampleRules }

/-- A table with two rules for `Publish`: the first from "draft", the second from
"published". -/
def duplicateRules : TransitionRules :=
  [ { SourceStates := [State.concrete "draft"], Transition := Publish,
      DestinationStates := [State.concrete "published"] },
    { SourceStates := [State.concrete "published"], Transition := Publish,
      DestinationStates := [State.concrete "archived"] } ]

/-- A machine over a published document with the table `duplicateRules`. -/
def duplicateMachine : StateMachine Document :=
  { StatefulObject := { state := State.concrete "published" },
    transitionRules := duplicateRules }

/-- Reference definition of `GetAvailableTransitions`, after the spec's words: keep, in
rule-table order, exactly the rules whose source State Set allows the current state (the
state is a member, or the set contains the wildcard) and map each kept rule to its
transition handle. -/
def availableTransitionsSpec (current : State) (trs : TransitionRules) : Transitions :=
  (trs.filter fun r =>
    decide (current ∈ r.SourceStates ∨ State.wildcard ∈ r.SourceStates)).map
      fun r => r.Transition

/-- The states a rule table refers to: for each rule in table order, its source states
followed by its destination states, concatenated. -/
def referencedStates : TransitionRules → List State
  | [] => []
  | transitionRule :: rest =>
    (transitionRule.SourceStates ++ transitionRule.DestinationStates) ++ referencedStates rest

/-- Keep only the first occurrence of each state of a list, in the order of the list. -/
def firstOccurrences : List State → List State
  | [] => []
  | s :: rest => s :: (firstOccurrences rest).filter fun x => decide (x ≠ s)

/-- Reference definition of `GetAllStates`, after the spec's words: take the states the
table refers to, drop every wildcard, and keep only the first occurrence of each state. -/
def allStatesSpec (trs : TransitionRules) : States :=
  firstOccurrences ((referencedStates trs).filter fun s => !s.IsWildCard)

/-- A sequence of `Run` calls on one machine: each call runs on the machine as the call
before it left it, whether that call succeeded or failed. -/
def RunSequence [Stateful σ ε] (logic : Logic σ ε α) (sm : StateMachine σ) :
    List (Transition × α) → StateMachine σ
  | [] => sm
  | (transition, transitionArguments) :: rest =>
    RunSequence logic (sm.Run logic transition transitionArguments).sm rest

/-- Handle of the example transition `Reset`; `exampleLogic` sends it to "draft". -/
def Reset : Transition := { handle := 4 }

/-- A table with one rule: `Reset` from "published" to any state. -/
def resetRules : TransitionRules :=
  [ { SourceStates := [State.concrete "published"], Transition := Reset,
      DestinationStates := [State.wildcard] } ]

/-- A machine over a published document with the table `resetRules`. -/
def resetMachine : StateMachine Document :=
  { StatefulObject := { state := State.concrete "published" }, transitionRules := resetRules }

/-- A table with two rules for `Publish`: the first from "draft" or "published", the
second from "draft" only. -/
def repeatRules : TransitionRules :=
  [ { SourceStates := [State.concrete "draft", State.concrete "published"],
      Transition := Publish, DestinationStates := [State.concrete "published"] },
    { SourceStates := [State.concrete "draft"], Transition := Publish,
      DestinationStates := [State.concrete "published"] } ]

/-- A machine over a draft document with the table `repeatRules`. -/
def repeatMachine : StateMachine Document :=
  { StatefulObject := { state := State.concrete "draft" }, transitionRules := repeatRules }

/-- The rule of `Archive` in the example table. -/
def archiveRule : TransitionRule :=
  { SourceStates := [State.wildcard], Transition := Archive,
    DestinationStates := [State.concrete "archived"] }

/-- A logic that hands back engine errors of its own making: `Publish` reports that
`Publish` has no rule, `Archive` reports that it cannot run from the current state. -/
def forgingLogic : Logic Document String String := fun transition _ =>
  if transition = Publish then
    (State.concrete "published", some (Error.TransitionRuleNotFoundError Publish))
  else if transition = Archive then
    (State.concrete "archived",
      some (Error.CannotRunFromStateError draftMachine archiveRule))
  else (State.concrete "draft", none)

/-- A machine over a published document that refuses every state, with `resetRules`. -/
def pickyMachine : StateMachine PickyDocument :=
  { StatefulObject := { state := State.concrete "published" }, transitionRules := resetRules }

/-- The memory with the given backing arrays, numbered from 0. -/
def Memory.ofArrays (arrays : List (List State)) : Memory :=
  fun a i => (arrays.getD a []).getD i State.wildcard

/-- Three arrays: `backing = [A, B, C]`, `[X]` and `[Y]`. -/
def sharedMemory : Memory :=
  Memory.ofArrays
    [[State.concrete "A", State.concrete "B", State.concrete "C"],
     [State.concrete "X"], [State.concrete "Y"]]

/-- Two rules on `sharedMemory`: `Publish` from `backing[:1]` to `[X]` and `Archive` from
`backing[1:2]` to `[Y]`; both sources have spare capacity in `backing`. -/
def sharedRules : SliceRules :=
  [ { SourceStates := { array := 0, offset := 0, len := 1, cap := 3 }, Transition := Publish,
      DestinationStates := { array := 1, offset := 0, len := 1, cap := 1 } },
    { SourceStates := { array := 0, offset := 1, len := 1, cap := 2 }, Transition := Archive,
      DestinationStates := { array := 2, offset := 0, len := 1, cap := 1 } } ]

/-- One array, `all = ["draft", "published", "archived"]`. -/
def lifecycleMemory : Memory :=
  Memory.ofArrays
    [[State.concrete "draft", State.concrete "published", State.concrete "archived"]]

/-- Two rules cut from `all`: `Archive` from `all[:1]` to `all[2:]` and `Publish` from
`all[:1]` to `all[1:2]`. -/
def lifecycleRules : SliceRules :=
  [ { SourceStates := { array := 0, offset := 0, len := 1, cap := 3 }, Transition := Archive,
      DestinationStates := { array := 0, offset := 2, len := 1, cap := 1 } },
    { SourceStates := { array := 0, offset := 0, len := 1, cap := 3 }, Transition := Publish,
      DestinationStates := { array := 0, offset := 1, len := 1, cap := 2 } } ]

/-- A machine over a draft document whose table is `lifecycleRules`, as read from
`lifecycleMemory`. -/
def lifecycleMachine : StateMachine Document :=
  { StatefulObject := { state := State.concrete "draft" },
    transitionRules := SliceRules.read lifecycleRules lifecycleMemory }

/-- Four arrays: `all = [P, Q, R]`, `[X]`, `[Y]` and `[Z]`. -/
def growMemory : Memory :=
  Memory.ofArrays
    [[State.concrete "P", State.concrete "Q", State.concrete "R"],
     [State.concrete "X"], [State.concrete "Y"], [State.concrete "Z"]]

/-- Two rules on `growMemory`: `Publish` from `all[1:2]` to `[X]` and `Archive` from
`all[:1]` to `[Y]`. -/
def growRules : SliceRules :=
  [ { SourceStates := { array := 0, offset := 1, len := 1, cap := 2 }, Transition := Publish,
      DestinationStates := { array := 1, offset := 0, len := 1, cap := 1 } },
    { SourceStates := { array := 0, offset := 0, len := 1, cap := 3 }, Transition := Archive,
      DestinationStates := { array := 2, offset := 0, len := 1, cap := 1 } } ]

/-- The rule registered next on `growRules`: `Review` from `[Z]` to the empty set. -/
def grownRule : SliceRule :=
  { SourceStates := { array := 3, offset := 0, len := 1, cap := 1 }, Transition := Review,
    DestinationStates := { array := 3, offset := 1, len := 0, cap := 0 } }

/-! ## Lemmas on the helpers -/

theorem allows_iff (ss : States) (candidate : State) :
    States.allows ss candidate = true ↔ candidate ∈ ss ∨ State.wildcard ∈ ss := by
  simp [States.allows]

theorem allows_eq_false_iff (ss : States) (candidate : State) :
    States.allows ss candidate = false ↔ candidate ∉ ss ∧ State.wildcard ∉ ss := by
  simp [States.allows]

theorem Find_eq_none_iff (trs : TransitionRules) (transition : Transition) :
    TransitionRules.Find trs transition = none ↔ ∀ r ∈ trs, r.Transition ≠ transition := by
  induction trs with
  | nil => simp [TransitionRules.Find]
  | cons r rest ih =>
    by_cases h : r.Transition = transition
    · simp [TransitionRules.Find, h]
    · simp [TransitionRules.Find, h, ih]

theorem Find_append_cons (before after : TransitionRules) (transitionRule : TransitionRule)
    (transition : Transition) (hrule : transitionRule.Transition = transition)
    (hbefore : ∀ r ∈ before, r.Transition ≠ transition) :
    TransitionRules.Find (before ++ transitionRule :: after) transition
      = some transitionRule := by
  induction before with
  | nil => simp [TransitionRules.Find, hrule]
  | cons r rest ih =>
    have hr : r.Transition ≠ transition := hbefore r (List.mem_cons_self _ _)
    have hrest : ∀ r ∈ rest, r.Transition ≠ transition :=
      fun x hx => hbefore x (List.mem_cons_of_mem _ hx)
    simp [TransitionRules.Find, hr, ih hrest]

theorem Find_eq_some_iff (trs : TransitionRules) (transition : Transition)
    (transitionRule : TransitionRule) :
    TransitionRules.Find trs transition = some transitionRule
      ↔ IsFirstRuleFor trs transition transitionRule := by
  constructor
  · intro h
    induction trs with
    | nil => simp [TransitionRules.Find] at h
    | cons r rest ih =>
      by_cases hr : r.Transition = transition
      · simp [TransitionRules.Find, hr] at h
        subst h
        exact ⟨[], rest, rfl, hr, by simp⟩
      · simp [TransitionRules.Find, hr] at h
        obtain ⟨before, after, heq, hrule, hbefore⟩ := ih h
        refine ⟨r :: before, after, by simp [heq], hrule, ?_⟩
        intro x hx
        rcases List.mem_cons.mp hx with hx | hx
        · subst hx; exact hr
        · exact hbefore x hx
  · rintro ⟨before, after, heq, hrule, hbefore⟩
    rw [heq]
    exact Find_append_cons before after transitionRule transition hrule hbefore

theorem IsFirstRuleFor.mem {trs : TransitionRules} {transition : Transition}
    {transitionRule : TransitionRule} (h : IsFirstRuleFor trs transition transitionRule) :
    transitionRule ∈ trs ∧ transitionRule.Transition = transition := by
  obtain ⟨before, after, heq, hrule, _⟩ := h
  exact ⟨by simp [heq], hrule⟩

/-! ## Lemmas on `Run`, one per return statement -/

section RunLemmas

variable [Stateful σ ε] (logic : Logic σ ε α) (sm : StateMachine σ) (transition : Transition)
  (transitionArguments : α)

theorem Run_of_not_found (hfind : TransitionRules.Find sm.transitionRules transition = none) :
    sm.Run logic transition transitionArguments
      = { err := some (Error.TransitionRuleNotFoundError transition), sm := sm,
          calls := [] } := by
  simp [StateMachine.Run, hfind]

theorem Run_of_source_rejected (transitionRule : TransitionRule)
    (hfind : TransitionRules.Find sm.transitionRules transition = some transitionRule)
    (hsrc : transitionRule.IsAllowedToRun (Stateful.State sm.StatefulObject) = false) :
    sm.Run logic transition transitionArguments
      = { err := some (Error.CannotRunFromStateError sm transitionRule), sm := sm,
          calls := [Call.State] } := by
  simp [StateMachine.Run, hfind, hsrc]

theorem Run_of_logic_error (transitionRule : TransitionRule) (newState : State)
    (e : Error σ ε)
    (hfind : TransitionRules.Find sm.transitionRules transition = some transitionRule)
    (hsrc : transitionRule.IsAllowedToRun (Stateful.State sm.StatefulObject) = true)
    (hlogic : logic transition transitionArguments = (newState, some e)) :
    sm.Run logic transition transitionArguments
      = { err := some e, sm := sm,
          calls := [Call.State, Call.Transition transition transitionArguments] } := by
  simp [StateMachine.Run, hfind, hsrc, hlogic]

theorem Run_of_destination_rejected (transitionRule : TransitionRule) (newState : State)
    (hfind : TransitionRules.Find sm.transitionRules transition = some transitionRule)
    (hsrc : transitionRule.IsAllowedToRun (Stateful.State sm.StatefulObject) = true)
    (hlogic : logic transition transitionArguments = (newState, none))
    (hdst : transitionRule.IsAllowedToTransfer newState = false) :
    sm.Run logic transition transitionArguments
      = { err := some (Error.CannotTransferToStateError newState), sm := sm,
          calls := [Call.State, Call.Transition transition transitionArguments] } := by
  simp [StateMachine.Run, hfind, hsrc, hlogic, hdst]

theorem Run_of_commit (transitionRule : TransitionRule) (newState : State)
    (hfind : TransitionRules.Find sm.transitionRules transition = some transitionRule)
    (hsrc : transitionRule.IsAllowedToRun (Stateful.State sm.StatefulObject) = true)
    (hlogic : logic transition transitionArguments = (newState, none))
    (hdst : transitionRule.IsAllowedToTransfer newState = true) :
    sm.Run logic transition transitionArguments
      = { err := (Stateful.SetState sm.StatefulObject newState).2,
          sm := { sm with StatefulObject := (Stateful.SetState sm.StatefulObject newState).1 },
          calls := [Call.State, Call.Transition transition transitionArguments,
            Call.SetState newState] } := by
  simp only [StateMachine.Run, hfind, hsrc, hlogic, hdst]
  rcases hset : Stateful.SetState sm.StatefulObject newState with ⟨o, _ | e⟩ <;> simp

end RunLemmas

/-! ## The claims on `Run` -/

/-- C1 — Run success postcondition: if the first rule registered for the transition
exists, its source set allows the entity's current state (membership or wildcard), the
transition logic returns `(s, nil)`, the rule's destination set allows `s` and the entity's
`SetState(s)` reports no error, then `Run` returns `nil` and the entity's current state
afterwards is `s`. -/
theorem Run_success [Stateful σ ε] (logic : Logic σ ε α) (sm : StateMachine σ)
    (transition : Transition) (transitionArguments : α) (transitionRule : TransitionRule)
    (s : State)
    (hrule : IsFirstRuleFor sm.transitionRules transition transitionRule)
    (hsrc : Stateful.State sm.StatefulObject ∈ transitionRule.SourceStates
      ∨ State.wildcard ∈ transitionRule.SourceStates)
    (hlogic : logic transition transitionArguments = (s, none))
    (hdst : s ∈ transitionRule.DestinationStates
      ∨ State.wildcard ∈ transitionRule.DestinationStates)
    (hset : (Stateful.SetState sm.StatefulObject s).2 = none) :
    (sm.Run logic transition transitionArguments).err = none ∧
      Stateful.State (sm.Run logic transition transitionArguments).sm.StatefulObject = s := by
  have hfind := (Find_eq_some_iff _ _ _).mpr hrule
  have hrun := Run_of_commit logic sm transition transitionArguments transitionRule s hfind
    ((allows_iff _ _).mpr hsrc) hlogic ((allows_iff _ _).mpr hdst)
  rw [hrun]
  exact ⟨by simp [hset], Stateful.commits _ _ hset⟩

/-- Witness for C1: the spec's scenario, `Publish` from "draft" to "published". -/
theorem Run_success_witness :
    (draftMachine.Run exampleLogic Publish "args").err = none ∧
      Stateful.State (draftMachine.Run exampleLogic Publish "args").sm.StatefulObject
        = State.concrete "published" :=
  Run_success exampleLogic draftMachine Publish "args"
    { SourceStates := [State.concrete "draft"], Transition := Publish,
      DestinationStates := [State.concrete "published"] }
    (State.concrete "published")
    ⟨[], _, rfl, rfl, by simp⟩ (Or.inl (by decide)) rfl (Or.inl (by decide)) rfl

/-- C2 — Fail-fast, no partial commit: when `Run` fails at rule lookup (no rule carries
the handle), at source validation, at transition execution or at destination validation,
it returns an error, the entity's `SetState` is never invoked, and the entity (hence the
state read from it) is what it was before the call. -/
theorem Run_fail_fast [Stateful σ ε] (logic : Logic σ ε α) (sm : StateMachine σ)
    (transition : Transition) (transitionArguments : α)
    (hfail : (∀ r ∈ sm.transitionRules, r.Transition ≠ transition) ∨
      ∃ transitionRule, IsFirstRuleFor sm.transitionRules transition transitionRule ∧
        (¬ (Stateful.State sm.StatefulObject ∈ transitionRule.SourceStates
              ∨ State.wildcard ∈ transitionRule.SourceStates)
          ∨ (∃ e, (logic transition transitionArguments).2 = some e)
          ∨ ¬ ((logic transition transitionArguments).1 ∈ transitionRule.DestinationStates
              ∨ State.wildcard ∈ transitionRule.DestinationStates))) :
    (sm.Run logic transition transitionArguments).err ≠ none ∧
      (∀ s, Call.SetState s ∉ (sm.Run logic transition transitionArguments).calls) ∧
      (sm.Run logic transition transitionArguments).sm = sm ∧
      Stateful.State (sm.Run logic transition transitionArguments).sm.StatefulObject
        = Stateful.State sm.StatefulObject := by
  rcases hfail with hnone | ⟨transitionRule, hrule, hstep⟩
  · rw [Run_of_not_found logic sm transition transitionArguments
      ((Find_eq_none_iff _ _).mpr hnone)]
    simp
  · have hfind := (Find_eq_some_iff _ _ _).mpr hrule
    cases hsrc : transitionRule.IsAllowedToRun (Stateful.State sm.StatefulObject) with
    | false =>
      rw [Run_of_source_rejected logic sm transition transitionArguments transitionRule
        hfind hsrc]
      simp
    | true =>
      rcases hl : logic transition transitionArguments with ⟨newState, _ | e⟩
      · cases hdst : transitionRule.IsAllowedToTransfer newState with
        | false =>
          rw [Run_of_destination_rejected logic sm transition transitionArguments
            transitionRule newState hfind hsrc hl hdst]
          simp
        | true =>
          exfalso
          rcases hstep with h | h | h
          · exact h ((allows_iff _ _).mp hsrc)
          · rw [hl] at h; simp at h
          · rw [hl] at h; exact h ((allows_iff _ _).mp hdst)
      · rw [Run_of_logic_error logic sm transition transitionArguments transitionRule
          newState e hfind hsrc hl]
        simp

/-- Witness for C2: `Archive` computes "deleted", outside its destination set. -/
theorem Run_fail_fast_witness :
    (draftMachine.Run exampleLogic Archive "args").err ≠ none ∧
      (∀ s, Call.SetState s ∉ (draftMachine.Run exampleLogic Archive "args").calls) ∧
      (draftMachine.Run exampleLogic Archive "args").sm = draftMachine ∧
      Stateful.State (draftMachine.Run exampleLogic Archive "args").sm.StatefulObject
        = Stateful.State draftMachine.StatefulObject :=
  Run_fail_fast exampleLogic draftMachine Archive "args"
    (Or.inr ⟨{ SourceStates := [State.wildcard], Transition := Archive,
               DestinationStates := [State.concrete "archived"] },
      ⟨[_], _, rfl, rfl, by decide⟩, Or.inr (Or.inr (by decide))⟩)

theorem Run_cases [Stateful σ ε] (logic : Logic σ ε α) (sm : StateMachine σ)
    (transition : Transition) (transitionArguments : α) :
    (TransitionRules.Find sm.transitionRules transition = none ∧
      sm.Run logic transition transitionArguments
        = { err := some (Error.TransitionRuleNotFoundError transition), sm := sm,
            calls := [] }) ∨
    (∃ transitionRule,
      TransitionRules.Find sm.transitionRules transition = some transitionRule ∧
      transitionRule.IsAllowedToRun (Stateful.State sm.StatefulObject) = false ∧
      sm.Run logic transition transitionArguments
        = { err := some (Error.CannotRunFromStateError sm transitionRule), sm := sm,
            calls := [Call.State] }) ∨
    (∃ transitionRule newState e,
      TransitionRules.Find sm.transitionRules transition = some transitionRule ∧
      transitionRule.IsAllowedToRun (Stateful.State sm.StatefulObject) = true ∧
      logic transition transitionArguments = (newState, some e) ∧
      sm.Run logic transition transitionArguments
        = { err := some e, sm := sm,
            calls := [Call.State, Call.Transition transition transitionArguments] }) ∨
    (∃ transitionRule newState,
      TransitionRules.Find sm.transitionRules transition = some transitionRule ∧
      transitionRule.IsAllowedToRun (Stateful.State sm.StatefulObject) = true ∧
      logic transition transitionArguments = (newState, none) ∧
      transitionRule.IsAllowedToTransfer newState = false ∧
      sm.Run logic transition transitionArguments
        = { err := some (Error.CannotTransferToStateError newState), sm := sm,
            calls := [Call.State, Call.Transition transition transitionArguments] }) ∨
    (∃ transitionRule newState,
      TransitionRules.Find sm.transitionRules transition = some transitionRule ∧
      transitionRule.IsAllowedToRun (Stateful.State sm.StatefulObject) = true ∧
      logic transition transitionArguments = (newState, none) ∧
      transitionRule.IsAllowedToTransfer newState = true ∧
      sm.Run logic transition transitionArguments
        = { err := (Stateful.SetState sm.StatefulObject newState).2,
            sm := { sm with
              StatefulObject := (Stateful.SetState sm.StatefulObject newState).1 },
            calls := [Call.State, Call.Transition transition transitionArguments,
              Call.SetState newState] }) := by
  cases hfind : TransitionRules.Find sm.transitionRules transition with
  | none =>
    exact Or.inl ⟨rfl, Run_of_not_found logic sm transition transitionArguments hfind⟩
  | some transitionRule =>
    right
    cases hsrc : transitionRule.IsAllowedToRun (Stateful.State sm.StatefulObject) with
    | false =>
      exact Or.inl ⟨transitionRule, rfl, hsrc,
        Run_of_source_rejected logic sm transition transitionArguments transitionRule
          hfind hsrc⟩
    | true =>
      right
      rcases hl : logic transition transitionArguments with ⟨newState, _ | e⟩
      · right
        cases hdst : transitionRule.IsAllowedToTransfer newState with
        | false =>
          exact Or.inl ⟨transitionRule, newState, rfl, hsrc, rfl, hdst,
            Run_of_destination_rejected logic sm transition transitionArguments
              transitionRule newState hfind hsrc hl hdst⟩
        | true =>
          exact Or.inr ⟨transitionRule, newState, rfl, hsrc, rfl, hdst,
            Run_of_commit logic sm transition transitionArguments transitionRule newState
              hfind hsrc hl hdst⟩
      · exact Or.inl ⟨transitionRule, newState, e, rfl, hsrc, rfl,
          Run_of_logic_error logic sm transition transitionArguments transitionRule
            newState e hfind hsrc hl⟩

theorem Run_calls_eq_nil_iff [Stateful σ ε] (logic : Logic σ ε α) (sm : StateMachine σ)
    (transition : Transition) (transitionArguments : α) :
    (sm.Run logic transition transitionArguments).calls = []
      ↔ TransitionRules.Find sm.transitionRules transition = none := by
  rcases Run_cases logic sm transition transitionArguments with
    ⟨hfind, hrun⟩ | ⟨r, hfind, _, hrun⟩ | ⟨r, s, e, hfind, _, _, hrun⟩ |
    ⟨r, s, hfind, _, _, _, hrun⟩ | ⟨r, s, hfind, _, _, _, hrun⟩ <;>
  simp [hrun, hfind]

theorem Run_err_origin [Stateful σ ε] (logic : Logic σ ε α) (sm : StateMachine σ)
    (transition : Transition) (transitionArguments : α) (transitionRule : TransitionRule)
    (e : Error σ ε)
    (hfind : TransitionRules.Find sm.transitionRules transition = some transitionRule)
    (hsrc : transitionRule.IsAllowedToRun (Stateful.State sm.StatefulObject) = true)
    (herr : (sm.Run logic transition transitionArguments).err = some e) :
    (logic transition transitionArguments).2 = some e ∨
    (∃ s, logic transition transitionArguments = (s, none) ∧
      transitionRule.IsAllowedToTransfer s = false ∧
      e = Error.CannotTransferToStateError s) ∨
    (∃ s, logic transition transitionArguments = (s, none) ∧
      transitionRule.IsAllowedToTransfer s = true ∧
      (Stateful.SetState sm.StatefulObject s).2 = some e) := by
  rcases hl : logic transition transitionArguments with ⟨newState, _ | e'⟩
  · cases hdst : transitionRule.IsAllowedToTransfer newState with
    | false =>
      rw [Run_of_destination_rejected logic sm transition transitionArguments
        transitionRule newState hfind hsrc hl hdst] at herr
      exact Or.inr (Or.inl ⟨newState, rfl, hdst, (Option.some.inj herr).symm⟩)
    | true =>
      rw [Run_of_commit logic sm transition transitionArguments transitionRule newState
        hfind hsrc hl hdst] at herr
      exact Or.inr (Or.inr ⟨newState, rfl, hdst, herr⟩)
  · rw [Run_of_logic_error logic sm transition transitionArguments transitionRule
      newState e' hfind hsrc hl] at herr
    exact Or.inl herr

/-- C3, counterexample — a `Run` that fails with `TransitionRuleNotFound` identifying the
transition although the table holds a rule for it: the rule for `Publish` is found, the
source check passes, and the logic of `Publish` hands back that error, which `Run`
returns as it is. -/
theorem Run_not_found_with_rule :
    TransitionRules.Find draftMachine.transitionRules Publish
        = some { SourceStates := [State.concrete "draft"], Transition := Publish,
                 DestinationStates := [State.concrete "published"] } ∧
      (draftMachine.Run forgingLogic Publish "args").err
        = some (Error.TransitionRuleNotFoundError Publish) := by
  decide

/-- C3, amended — `Run` fails at rule lookup exactly when no rule of the table carries the
handle, whatever the entity's state and the arguments: it then returns
`TransitionRuleNotFound` identifying the transition and calls no collaborator, so the
transition logic is not invoked.  When a rule carries the handle, a `TransitionRuleNotFound`
error comes out of `Run` only as the error the transition logic or the entity's
`SetState` returned. -/
theorem Run_not_found_iff [Stateful σ ε] (logic : Logic σ ε α) (sm : StateMachine σ)
    (transition : Transition) (transitionArguments : α) :
    ((sm.Run logic transition transitionArguments).calls = []
      ↔ ∀ r ∈ sm.transitionRules, r.Transition ≠ transition) ∧
    ((∀ r ∈ sm.transitionRules, r.Transition ≠ transition) →
      sm.Run logic transition transitionArguments
        = { err := some (Error.TransitionRuleNotFoundError transition), sm := sm,
            calls := [] }) ∧
    ((∃ r ∈ sm.transitionRules, r.Transition = transition) →
      ∀ named : Transition,
        (sm.Run logic transition transitionArguments).err
          = some (Error.TransitionRuleNotFoundError named) →
        (logic transition transitionArguments).2
            = some (Error.TransitionRuleNotFoundError named) ∨
          ∃ s, logic transition transitionArguments = (s, none) ∧
            (Stateful.SetState sm.StatefulObject s).2
              = some (Error.TransitionRuleNotFoundError named)) := by
  refine ⟨?_, ?_, ?_⟩
  · rw [Run_calls_eq_nil_iff, Find_eq_none_iff]
  · intro hnone
    exact Run_of_not_found logic sm transition transitionArguments
      ((Find_eq_none_iff _ _).mpr hnone)
  · rintro ⟨r, hr, hrt⟩ named herr
    cases hfind : TransitionRules.Find sm.transitionRules transition with
    | none => exact absurd hrt ((Find_eq_none_iff _ _).mp hfind r hr)
    | some transitionRule =>
      cases hsrc : transitionRule.IsAllowedToRun (Stateful.State sm.StatefulObject) with
      | false =>
        rw [Run_of_source_rejected logic sm transition transitionArguments transitionRule
          hfind hsrc] at herr
        simp at herr
      | true =>
        rcases Run_err_origin logic sm transition transitionArguments transitionRule _
          hfind hsrc herr with h | ⟨s, _, _, h⟩ | ⟨s, hl, _, h⟩
        · exact Or.inl h
        · simp at h
        · exact Or.inr ⟨s, hl, h⟩

/-- Witness for C3 (amended): the spec's scenario, `Unpublish` has no rule. -/
theorem Run_not_found_iff_witness :
    draftMachine.Run (exampleLogic : Logic Document String String) Unpublish "args"
      = { err := some (Error.TransitionRuleNotFoundError Unpublish), sm := draftMachine,
          calls := [] } :=
  (Run_not_found_iff exampleLogic draftMachine Unpublish "args").2.1 (by decide)

/-- C4 — Source validation: when a rule for the transition exists and the source set of the
first such rule contains neither the entity's current state nor the wildcard, `Run` fails
with `CannotRunFromState` carrying the machine and that rule; the only collaborator call
is the read of the state, so the transition logic is not invoked, and the whole result is
the same whatever that logic is. -/
theorem Run_source_rejected [Stateful σ ε] (sm : StateMachine σ) (transition : Transition)
    (transitionArguments : α) (transitionRule : TransitionRule)
    (hrule : IsFirstRuleFor sm.transitionRules transition transitionRule)
    (hmem : Stateful.State sm.StatefulObject ∉ transitionRule.SourceStates)
    (hwild : State.wildcard ∉ transitionRule.SourceStates) :
    (∀ logic : Logic σ ε α,
      (sm.Run logic transition transitionArguments).err
          = some (Error.CannotRunFromStateError sm transitionRule) ∧
        (sm.Run logic transition transitionArguments).calls = [Call.State] ∧
        (∀ t a, Call.Transition t a ∉ (sm.Run logic transition transitionArguments).calls)) ∧
    (∀ logic₁ logic₂ : Logic σ ε α,
      sm.Run logic₁ transition transitionArguments
        = sm.Run logic₂ transition transitionArguments) := by
  have hfind := (Find_eq_some_iff _ _ _).mpr hrule
  have hsrc : transitionRule.IsAllowedToRun (Stateful.State sm.StatefulObject) = false :=
    (allows_eq_false_iff _ _).mpr ⟨hmem, hwild⟩
  have hrun := fun logic : Logic σ ε α =>
    Run_of_source_rejected logic sm transition transitionArguments transitionRule hfind hsrc
  constructor
  · intro logic
    rw [hrun logic]
    simp
  · intro logic₁ logic₂
    rw [hrun logic₁, hrun logic₂]

/-- Witness for C4: `Publish` on a document that is already "published". -/
theorem Run_source_rejected_witness :
    (∀ logic : Logic Document String String,
      (publishedMachine.Run logic Publish "args").err
          = some (Error.CannotRunFromStateError publishedMachine
              { SourceStates := [State.concrete "draft"], Transition := Publish,
                DestinationStates := [State.concrete "published"] }) ∧
        (publishedMachine.Run logic Publish "args").calls = [Call.State] ∧
        (∀ t a, Call.Transition t a ∉ (publishedMachine.Run logic Publish "args").calls)) ∧
    (∀ logic₁ logic₂ : Logic Document String String,
      publishedMachine.Run logic₁ Publish "args"
        = publishedMachine.Run logic₂ Publish "args") :=
  Run_source_rejected publishedMachine Publish "args"
    { SourceStates := [State.concrete "draft"], Transition := Publish,
      DestinationStates := [State.concrete "published"] }
    ⟨[], _, rfl, rfl, by simp⟩ (by decide) (by decide)

/-- C5 — Destination validation: when `Run` passes rule lookup and source validation and
the transition logic returns `(s, nil)` with `s` neither a member of the rule's destination
set nor covered by a wildcard in it, `Run` fails with `CannotTransferToState` carrying
exactly `s`, and the entity (hence its state) is unchanged. -/
theorem Run_destination_rejected [Stateful σ ε] (logic : Logic σ ε α) (sm : StateMachine σ)
    (transition : Transition) (transitionArguments : α) (transitionRule : TransitionRule)
    (s : State)
    (hrule : IsFirstRuleFor sm.transitionRules transition transitionRule)
    (hsrc : Stateful.State sm.StatefulObject ∈ transitionRule.SourceStates
      ∨ State.wildcard ∈ transitionRule.SourceStates)
    (hlogic : logic transition transitionArguments = (s, none))
    (hmem : s ∉ transitionRule.DestinationStates)
    (hwild : State.wildcard ∉ transitionRule.DestinationStates) :
    (sm.Run logic transition transitionArguments).err
        = some (Error.CannotTransferToStateError s) ∧
      (sm.Run logic transition transitionArguments).sm = sm ∧
      Stateful.State (sm.Run logic transition transitionArguments).sm.StatefulObject
        = Stateful.State sm.StatefulObject := by
  have hfind := (Find_eq_some_iff _ _ _).mpr hrule
  rw [Run_of_destination_rejected logic sm transition transitionArguments transitionRule s
    hfind ((allows_iff _ _).mpr hsrc) hlogic ((allows_eq_false_iff _ _).mpr ⟨hmem, hwild⟩)]
  simp

/-- Witness for C5: the rule declares "archived" and the logic returns "deleted". -/
theorem Run_destination_rejected_witness :
    (draftMachine.Run exampleLogic Archive "args").err
        = some (Error.CannotTransferToStateError (State.concrete "deleted")) ∧
      (draftMachine.Run exampleLogic Archive "args").sm = draftMachine ∧
      Stateful.State (draftMachine.Run exampleLogic Archive "args").sm.StatefulObject
        = Stateful.State draftMachine.StatefulObject :=
  Run_destination_rejected exampleLogic draftMachine Archive "args"
    { SourceStates := [State.wildcard], Transition := Archive,
      DestinationStates := [State.concrete "archived"] }
    (State.concrete "deleted")
    ⟨[_], _, rfl, rfl, by decide⟩ (Or.inr (by decide)) rfl (by decide) (by decide)

/-- C6 — Verbatim error propagation: once lookup and source validation have passed, an
error `e` returned by the transition logic is what `Run` returns, whatever state comes with
it and whatever the destination set is; and when the logic succeeds and the destination
set allows the candidate, an error `e` reported by the entity's `SetState` is what `Run`
returns. -/
theorem Run_propagates [Stateful σ ε] (logic : Logic σ ε α) (sm : StateMachine σ)
    (transition : Transition) (transitionArguments : α) (transitionRule : TransitionRule)
    (hrule : IsFirstRuleFor sm.transitionRules transition transitionRule)
    (hsrc : Stateful.State sm.StatefulObject ∈ transitionRule.SourceStates
      ∨ State.wildcard ∈ transitionRule.SourceStates) :
    (∀ (s : State) (e : Error σ ε), logic transition transitionArguments = (s, some e) →
      (sm.Run logic transition transitionArguments).err = some e) ∧
    (∀ (s : State) (e : Error σ ε), logic transition transitionArguments = (s, none) →
      (s ∈ transitionRule.DestinationStates
        ∨ State.wildcard ∈ transitionRule.DestinationStates) →
      (Stateful.SetState sm.StatefulObject s).2 = some e →
      (sm.Run logic transition transitionArguments).err = some e) := by
  have hfind := (Find_eq_some_iff _ _ _).mpr hrule
  have hsrc' := (allows_iff _ _).mpr hsrc
  constructor
  · intro s e hlogic
    rw [Run_of_logic_error logic sm transition transitionArguments transitionRule s e
      hfind hsrc' hlogic]
  · intro s e hlogic hdst hset
    rw [Run_of_commit logic sm transition transitionArguments transitionRule s hfind hsrc'
      hlogic ((allows_iff _ _).mpr hdst)]
    simp [hset]

/-- Witness for C6: `Review` fails with "no reviewer" (and its candidate "reviewed" is
outside the destination set); `Publish` on failing storage fails with "storage failure". -/
theorem Run_propagates_witness :
    (draftMachine.Run exampleLogic Review "args").err = some (Error.foreign "no reviewer") ∧
      (flakyMachine.Run exampleLogic Publish "args").err
        = some (Error.foreign "storage failure") :=
  ⟨(Run_propagates exampleLogic draftMachine Review "args"
      { SourceStates := [State.concrete "draft"], Transition := Review,
        DestinationStates := [State.concrete "approved"] }
      ⟨[_, _], _, rfl, rfl, by decide⟩ (Or.inl (by decide))).1
      (State.concrete "reviewed") (Error.foreign "no reviewer") rfl,
   (Run_propagates exampleLogic flakyMachine Publish "args"
      { SourceStates := [State.concrete "draft"], Transition := Publish,
        DestinationStates := [State.concrete "published"] }
      ⟨[], _, rfl, rfl, by simp⟩ (Or.inl (by decide))).2
      (State.concrete "published") (Error.foreign "storage failure") rfl
      (Or.inl (by decide)) rfl⟩

/-- C7, counterexample — a `Run` that returns an error and leaves the entity in another
state: `Publish` passes every check, the document's `SetState` reports "storage failure"
and leaves the document "corrupt", where it was "draft" before the call. -/
theorem Run_commit_failure_changes_state :
    (flakyMachine.Run exampleLogic Publish "args").err
        = some (Error.foreign "storage failure") ∧
      Stateful.State flakyMachine.StatefulObject = State.concrete "draft" ∧
      Stateful.State (flakyMachine.Run exampleLogic Publish "args").sm.StatefulObject
        = State.concrete "corrupt" ∧
      Stateful.State (flakyMachine.Run exampleLogic Publish "args").sm.StatefulObject
        ≠ Stateful.State flakyMachine.StatefulObject := by
  decide

/-- C7, amended — a `Run` that returns an error either failed before the commit step, and
then `SetState` was not invoked and the entity is exactly what it was before the call; or
it returns the error `e` that `SetState(s)` reported at the commit step, and then the
entity is as that `SetState` call left it (the engine does not roll back), so that its
state equals the state before the call exactly when the failing `SetState` kept it. -/
theorem Run_error_state [Stateful σ ε] (logic : Logic σ ε α) (sm : StateMachine σ)
    (transition : Transition) (transitionArguments : α)
    (herr : (sm.Run logic transition transitionArguments).err ≠ none) :
    ((∀ s, Call.SetState s ∉ (sm.Run logic transition transitionArguments).calls) ∧
        (sm.Run logic transition transitionArguments).sm = sm ∧
        Stateful.State (sm.Run logic transition transitionArguments).sm.StatefulObject
          = Stateful.State sm.StatefulObject) ∨
    (∃ (s : State) (e : Error σ ε),
        logic transition transitionArguments = (s, none) ∧
        Call.SetState s ∈ (sm.Run logic transition transitionArguments).calls ∧
        (Stateful.SetState sm.StatefulObject s).2 = some e ∧
        (sm.Run logic transition transitionArguments).err = some e ∧
        (sm.Run logic transition transitionArguments).sm.StatefulObject
          = (Stateful.SetState sm.StatefulObject s).1) := by
  cases hfind : TransitionRules.Find sm.transitionRules transition with
  | none =>
    left
    rw [Run_of_not_found logic sm transition transitionArguments hfind]
    simp
  | some transitionRule =>
    cases hsrc : transitionRule.IsAllowedToRun (Stateful.State sm.StatefulObject) with
    | false =>
      left
      rw [Run_of_source_rejected logic sm transition transitionArguments transitionRule
        hfind hsrc]
      simp
    | true =>
      rcases hl : logic transition transitionArguments with ⟨newState, _ | e⟩
      · cases hdst : transitionRule.IsAllowedToTransfer newState with
        | false =>
          left
          rw [Run_of_destination_rejected logic sm transition transitionArguments
            transitionRule newState hfind hsrc hl hdst]
          simp
        | true =>
          right
          have hrun := Run_of_commit logic sm transition transitionArguments
            transitionRule newState hfind hsrc hl hdst
          rw [hrun] at herr ⊢
          cases hset : (Stateful.SetState sm.StatefulObject newState).2 with
          | none => simp [hset] at herr
          | some e => exact ⟨newState, e, rfl, by simp, hset, by simp [hset], rfl⟩
      · left
        rw [Run_of_logic_error logic sm transition transitionArguments transitionRule
          newState e hfind hsrc hl]
        simp

/-- Witness for C7 (amended): `Publish` on failing storage returns an error. -/
theorem Run_error_state_witness :
    ((∀ s, Call.SetState s ∉ (flakyMachine.Run exampleLogic Publish "args").calls) ∧
        (flakyMachine.Run exampleLogic Publish "args").sm = flakyMachine ∧
        Stateful.State (flakyMachine.Run exampleLogic Publish "args").sm.StatefulObject
          = Stateful.State flakyMachine.StatefulObject) ∨
    (∃ (s : State) (e : Error FlakyDocument String),
        (exampleLogic : Logic FlakyDocument String String) Publish "args" = (s, none) ∧
        Call.SetState s ∈ (flakyMachine.Run exampleLogic Publish "args").calls ∧
        (Stateful.SetState flakyMachine.StatefulObject s).2 = some e ∧
        (flakyMachine.Run exampleLogic Publish "args").err = some e ∧
        (flakyMachine.Run exampleLogic Publish "args").sm.StatefulObject
          = (Stateful.SetState flakyMachine.StatefulObject s).1) :=
  Run_error_state exampleLogic flakyMachine Publish "args" (by decide)

/-! ## The claims on `GetAvailableTransitions` -/

theorem IsAllowedToRun_eq_decide (transitionRule : TransitionRule) (current : State) :
    transitionRule.IsAllowedToRun current
      = decide (current ∈ transitionRule.SourceStates
          ∨ State.wildcard ∈ transitionRule.SourceStates) := by
  rw [Bool.eq_iff_iff]
  simp [TransitionRule.IsAllowedToRun, allows_iff]

theorem loop_eq_append (current : State) (trs : TransitionRules) (transitions : Transitions) :
    GetAvailableTransitions.loop current trs transitions
      = transitions ++ availableTransitionsSpec current trs := by
  induction trs generalizing transitions with
  | nil => simp [GetAvailableTransitions.loop, availableTransitionsSpec]
  | cons r rest ih =>
    cases h : r.IsAllowedToRun current with
    | true =>
      have hp : current ∈ r.SourceStates ∨ State.wildcard ∈ r.SourceStates := by
        simpa [IsAllowedToRun_eq_decide] using h
      simp only [GetAvailableTransitions.loop, h, if_true, ih]
      simp [availableTransitionsSpec, List.filter_cons, hp]
    | false =>
      have hp : ¬ (current ∈ r.SourceStates ∨ State.wildcard ∈ r.SourceStates) := by
        simpa [IsAllowedToRun_eq_decide] using h
      simp only [GetAvailableTransitions.loop, h, ih]
      simp [availableTransitionsSpec, List.filter_cons, hp]

theorem GetAvailableTransitions_eq_spec [Stateful σ ε] (sm : StateMachine σ) :
    sm.GetAvailableTransitions
      = availableTransitionsSpec (Stateful.State sm.StatefulObject) sm.transitionRules := by
  simp [StateMachine.GetAvailableTransitions, loop_eq_append]

theorem count_availableTransitionsSpec (current : State) (trs : TransitionRules)
    (transition : Transition) :
    (availableTransitionsSpec current trs).count transition
      = (trs.filter fun r => decide (r.Transition = transition ∧
          (current ∈ r.SourceStates ∨ State.wildcard ∈ r.SourceStates))).length := by
  induction trs with
  | nil => simp [availableTransitionsSpec]
  | cons r rest ih =>
    have hstep : availableTransitionsSpec current (r :: rest)
        = (if current ∈ r.SourceStates ∨ State.wildcard ∈ r.SourceStates
            then [r.Transition] else []) ++ availableTransitionsSpec current rest := by
      by_cases h : current ∈ r.SourceStates ∨ State.wildcard ∈ r.SourceStates
      · simp [availableTransitionsSpec, List.filter_cons, h]
      · simp [availableTransitionsSpec, List.filter_cons, h]
    rw [hstep, List.count_append, ih]
    by_cases h : current ∈ r.SourceStates ∨ State.wildcard ∈ r.SourceStates
    · by_cases ht : r.Transition = transition
      · simp [List.filter_cons, h, ht, Nat.add_comm]
      · simp [List.filter_cons, h, ht, List.count_cons]
    · simp [List.filter_cons, h]

theorem mem_availableTransitionsSpec (current : State) (trs : TransitionRules)
    (transition : Transition) :
    transition ∈ availableTransitionsSpec current trs
      ↔ ∃ r ∈ trs, r.Transition = transition ∧
          (current ∈ r.SourceStates ∨ State.wildcard ∈ r.SourceStates) := by
  simp only [availableTransitionsSpec, List.mem_map, List.mem_filter, decide_eq_true_eq]
  constructor
  · rintro ⟨r, ⟨hr, hallow⟩, ht⟩
    exact ⟨r, hr, ht, hallow⟩
  · rintro ⟨r, hr, ht, hallow⟩
    exact ⟨r, ⟨hr, hallow⟩, ht⟩

/-- C8 — `GetAvailableTransitions` equals the reference definition: the handles of the
rules whose source set allows the entity's current state (membership or wildcard), in
rule-table order; a transition appears once per allowing rule that carries it, and the
result is empty when no rule allows the current state. -/
theorem GetAvailableTransitions_refines [Stateful σ ε] (sm : StateMachine σ) :
    sm.GetAvailableTransitions
        = availableTransitionsSpec (Stateful.State sm.StatefulObject) sm.transitionRules ∧
    (∀ transition : Transition,
      sm.GetAvailableTransitions.count transition
        = (sm.transitionRules.filter fun r => decide (r.Transition = transition ∧
            (Stateful.State sm.StatefulObject ∈ r.SourceStates
              ∨ State.wildcard ∈ r.SourceStates))).length) ∧
    ((∀ r ∈ sm.transitionRules,
        ¬ (Stateful.State sm.StatefulObject ∈ r.SourceStates
            ∨ State.wildcard ∈ r.SourceStates)) →
      sm.GetAvailableTransitions = []) := by
  refine ⟨GetAvailableTransitions_eq_spec sm, ?_, ?_⟩
  · intro transition
    rw [GetAvailableTransitions_eq_spec, count_availableTransitionsSpec]
  · intro hnone
    rw [GetAvailableTransitions_eq_spec, List.eq_nil_iff_forall_not_mem]
    intro transition hmem
    obtain ⟨r, hr, _, hallow⟩ := (mem_availableTransitionsSpec _ _ _).mp hmem
    exact hnone r hr hallow

/-- Witness for C8: neither rule of `duplicateRules` allows "archived", so a document in
that state has no available transition. -/
theorem GetAvailableTransitions_refines_witness :
    StateMachine.GetAvailableTransitions
      ({ StatefulObject := { state := State.concrete "archived" },
         transitionRules := duplicateRules } : StateMachine Document) = [] :=
  (GetAvailableTransitions_refines
    ({ StatefulObject := { state := State.concrete "archived" },
       transitionRules := duplicateRules } : StateMachine Document)).2.2 (by decide)

theorem eq_of_mem_of_length_le_one {β : Type} {l : List β} (hlen : l.length ≤ 1) {a b : β}
    (ha : a ∈ l) (hb : b ∈ l) : a = b := by
  match l, hlen, ha, hb with
  | [x], _, ha, hb =>
    rw [List.mem_singleton] at ha hb
    rw [ha, hb]
  | _ :: _ :: _, hlen, _, _ => simp at hlen

/-- C9, counterexample — a transition that `GetAvailableTransitions` reports and that
`Run` refuses with `CannotRunFromState`: `Publish` has two rules, the document is
"published", the second rule allows that state and puts `Publish` in the result, while
`Run` consults the first rule only. -/
theorem available_transition_cannot_run :
    Publish ∈ duplicateMachine.GetAvailableTransitions ∧
      (duplicateMachine.Run exampleLogic Publish "args").err
        = some (Error.CannotRunFromStateError duplicateMachine
            { SourceStates := [State.concrete "draft"], Transition := Publish,
              DestinationStates := [State.concrete "published"] }) := by
  decide

/-- C9, amended — if a transition appears in the result of `GetAvailableTransitions`, then
`Run` on it does not stop at rule lookup; it stops at source validation, returning
`CannotRunFromState` without invoking the logic, exactly when the first rule registered
for the transition does not allow the current state, which cannot happen when the table
holds a single rule for that transition.  When the first rule allows the state the logic
is invoked, and an error `Run` then returns is the error of the logic, the
`CannotTransferToState` of the rejected candidate, or the error of `SetState`. -/
theorem available_transition_runs [Stateful σ ε] (logic : Logic σ ε α) (sm : StateMachine σ)
    (transition : Transition) (transitionArguments : α)
    (havailable : transition ∈ sm.GetAvailableTransitions) :
    (sm.Run logic transition transitionArguments).calls ≠ [] ∧
    (∀ first : TransitionRule, IsFirstRuleFor sm.transitionRules transition first →
      ((sm.Run logic transition transitionArguments).calls = [Call.State]
        ↔ ¬ (Stateful.State sm.StatefulObject ∈ first.SourceStates
              ∨ State.wildcard ∈ first.SourceStates)) ∧
      (¬ (Stateful.State sm.StatefulObject ∈ first.SourceStates
            ∨ State.wildcard ∈ first.SourceStates) →
        (sm.Run logic transition transitionArguments).err
          = some (Error.CannotRunFromStateError sm first)) ∧
      ((Stateful.State sm.StatefulObject ∈ first.SourceStates
            ∨ State.wildcard ∈ first.SourceStates) →
        Call.Transition transition transitionArguments
            ∈ (sm.Run logic transition transitionArguments).calls ∧
          ∀ e, (sm.Run logic transition transitionArguments).err = some e →
            (logic transition transitionArguments).2 = some e ∨
            (∃ s, logic transition transitionArguments = (s, none) ∧
              e = Error.CannotTransferToStateError s) ∨
            (∃ s, logic transition transitionArguments = (s, none) ∧
              (Stateful.SetState sm.StatefulObject s).2 = some e))) ∧
    ((sm.transitionRules.filter fun r => decide (r.Transition = transition)).length ≤ 1 →
      Call.Transition transition transitionArguments
        ∈ (sm.Run logic transition transitionArguments).calls) := by
  rw [GetAvailableTransitions_eq_spec, mem_availableTransitionsSpec] at havailable
  obtain ⟨r, hr, hrt, hallow⟩ := havailable
  have hpassed : ∀ first : TransitionRule,
      TransitionRules.Find sm.transitionRules transition = some first →
      first.IsAllowedToRun (Stateful.State sm.StatefulObject) = true →
      Call.Transition transition transitionArguments
        ∈ (sm.Run logic transition transitionArguments).calls := by
    intro first hfind hsrc
    rcases hl : logic transition transitionArguments with ⟨newState, _ | e⟩
    · cases hdst : first.IsAllowedToTransfer newState with
      | false =>
        rw [Run_of_destination_rejected logic sm transition transitionArguments first
          newState hfind hsrc hl hdst]
        simp
      | true =>
        rw [Run_of_commit logic sm transition transitionArguments first newState hfind
          hsrc hl hdst]
        simp
    · rw [Run_of_logic_error logic sm transition transitionArguments first newState e
        hfind hsrc hl]
      simp
  refine ⟨?_, ?_, ?_⟩
  · intro hnil
    have hnone := (Find_eq_none_iff _ _).mp
      ((Run_calls_eq_nil_iff logic sm transition transitionArguments).mp hnil)
    exact hnone r hr hrt
  · intro first hfirst
    have hfind := (Find_eq_some_iff _ _ _).mpr hfirst
    have hrejected : ¬ (Stateful.State sm.StatefulObject ∈ first.SourceStates
          ∨ State.wildcard ∈ first.SourceStates) →
        sm.Run logic transition transitionArguments
          = { err := some (Error.CannotRunFromStateError sm first), sm := sm,
              calls := [Call.State] } := by
      intro hnot
      exact Run_of_source_rejected logic sm transition transitionArguments first hfind
        ((allows_eq_false_iff _ _).mpr ⟨fun h => hnot (Or.inl h), fun h => hnot (Or.inr h)⟩)
    refine ⟨⟨?_, fun hnot => by rw [hrejected hnot]⟩, fun hnot => by rw [hrejected hnot], ?_⟩
    · intro hcalls hallows
      have hmem := hpassed first hfind ((allows_iff _ _).mpr hallows)
      rw [hcalls] at hmem
      simp at hmem
    · intro hallows
      have hsrc := (allows_iff _ _).mpr hallows
      refine ⟨hpassed first hfind hsrc, ?_⟩
      intro e herr
      rcases Run_err_origin logic sm transition transitionArguments first e hfind hsrc herr
        with h | ⟨s, hl, _, h⟩ | ⟨s, hl, _, h⟩
      · exact Or.inl h
      · exact Or.inr (Or.inl ⟨s, hl, h⟩)
      · exact Or.inr (Or.inr ⟨s, hl, h⟩)
  · intro hsingle
    cases hfind : TransitionRules.Find sm.transitionRules transition with
    | none => exact absurd hrt ((Find_eq_none_iff _ _).mp hfind r hr)
    | some first =>
      have hfirst := ((Find_eq_some_iff _ _ _).mp hfind).mem
      have heq : first = r :=
        eq_of_mem_of_length_le_one hsingle
          (List.mem_filter.mpr ⟨hfirst.1, by simp [hfirst.2]⟩)
          (List.mem_filter.mpr ⟨hr, by simp [hrt]⟩)
      exact hpassed first hfind (by rw [heq]; exact (allows_iff _ _).mpr hallow)

/-- Witness for C9 (amended): `Publish` is available on a draft document, where its only
rule allows the state, and its logic is invoked. -/
theorem available_transition_runs_witness :
    Call.Transition Publish "args"
      ∈ (draftMachine.Run (exampleLogic : Logic Document String String) Publish "args").calls :=
  (available_transition_runs exampleLogic draftMachine Publish "args" (by decide)).2.2
    (by decide)

/-! ## The claims on `GetAllStates` -/

theorem IsWildCard_eq_false_iff (s : State) : s.IsWildCard = false ↔ s ≠ State.wildcard := by
  cases s <;> simp [State.IsWildCard]

theorem visit_concrete (acc : States × List State) (state : State)
    (h : ∀ s ∈ acc.1, s.IsWildCard = false) :
    ∀ s ∈ (GetAllStates.visit acc state).1, s.IsWildCard = false := by
  unfold GetAllStates.visit
  by_cases hseen : state ∈ acc.2
  · simpa [hseen] using h
  · cases hw : state.IsWildCard with
    | true => simpa [hseen, hw] using h
    | false =>
      intro s hs
      simp [hseen, hw] at hs
      rcases hs with hs | hs
      · exact h s hs
      · rw [hs]; exact hw

theorem foldl_visit_concrete (states : List State) (acc : States × List State)
    (h : ∀ s ∈ acc.1, s.IsWildCard = false) :
    ∀ s ∈ (states.foldl GetAllStates.visit acc).1, s.IsWildCard = false := by
  induction states generalizing acc with
  | nil => simpa using h
  | cons x rest ih =>
    rw [List.foldl_cons]
    exact ih _ (visit_concrete acc x h)

theorem foldl_visitRule_concrete (rules : SliceRules)
    (acc : (States × List State) × Memory)
    (h : ∀ s ∈ acc.1.1, s.IsWildCard = false) :
    ∀ s ∈ (rules.foldl GetAllStates.visitRule acc).1.1, s.IsWildCard = false := by
  induction rules generalizing acc with
  | nil => simpa using h
  | cons r rest ih =>
    rw [List.foldl_cons]
    exact ih _ (foldl_visit_concrete _ acc.1 h)

/-- C10 — `GetAllStates` excludes the wildcard: whatever the rule table and the memory
behind its slices, the result never contains the wildcard state; and a single rule whose
source holds `{wildcard}` and whose destination holds `{A, B}`, with `A` and `B` concrete
and distinct, yields exactly `[A, B]`. -/
theorem GetAllStates_excludes_wildcard (transitionRules : SliceRules) (mem : Memory) :
    (State.wildcard ∉ (StateMachine.GetAllStates transitionRules mem).1 ∧
      ∀ s ∈ (StateMachine.GetAllStates transitionRules mem).1, s.IsWildCard = false) ∧
    (∀ (transition : Transition) (source destination : Slice) (a b : String), a ≠ b →
      source.read mem = [State.wildcard] →
      destination.read mem = [State.concrete a, State.concrete b] →
      (StateMachine.GetAllStates
          [{ SourceStates := source, Transition := transition,
             DestinationStates := destination }] mem).1
        = [State.concrete a, State.concrete b]) := by
  have hall : ∀ s ∈ (StateMachine.GetAllStates transitionRules mem).1,
      s.IsWildCard = false :=
    foldl_visitRule_concrete transitionRules (([], []), mem) (by simp)
  refine ⟨⟨?_, hall⟩, ?_⟩
  · intro hmem
    have := hall _ hmem
    simp [State.IsWildCard] at this
  · intro transition source destination a b hab hsource hdestination
    have hba : ¬ b = a := fun h => hab h.symm
    simp [StateMachine.GetAllStates, GetAllStates.visitRule, Slice.append, hsource,
      hdestination, GetAllStates.visit, State.IsWildCard, hab, hba]

/-- Witness for C10: one array `[wildcard, A, B]`; the source is its first cell, with the
capacity of the whole array, and the destination is its last two cells. -/
theorem GetAllStates_excludes_wildcard_witness :
    (StateMachine.GetAllStates
        [{ SourceStates := { array := 0, offset := 0, len := 1, cap := 3 },
           Transition := Publish,
           DestinationStates := { array := 0, offset := 1, len := 2, cap := 2 } }]
        (Memory.ofArrays [[State.wildcard, State.concrete "A", State.concrete "B"]])).1
      = [State.concrete "A", State.concrete "B"] :=
  (GetAllStates_excludes_wildcard [] _).2 Publish _ _ "A" "B" (by decide) (by decide)
    (by decide)

/-! ## `GetAllStates` against its reference definition -/

theorem mem_referencedStates (trs : TransitionRules) (s : State) :
    s ∈ referencedStates trs
      ↔ ∃ r ∈ trs, s ∈ r.SourceStates ∨ s ∈ r.DestinationStates := by
  induction trs with
  | nil => simp [referencedStates]
  | cons r rest ih => simp [referencedStates, ih, or_assoc]

theorem referencedStates_append (trs more : TransitionRules) :
    referencedStates (trs ++ more) = referencedStates trs ++ referencedStates more := by
  induction trs with
  | nil => simp [referencedStates]
  | cons r rest ih => simp [referencedStates, ih]

theorem mem_firstOccurrences (l : List State) (s : State) :
    s ∈ firstOccurrences l ↔ s ∈ l := by
  induction l with
  | nil => simp [firstOccurrences]
  | cons x rest ih =>
    by_cases h : s = x
    · simp [firstOccurrences, h]
    · simp [firstOccurrences, h, ih]

theorem nodup_firstOccurrences (l : List State) : (firstOccurrences l).Nodup := by
  induction l with
  | nil => simp [firstOccurrences]
  | cons x rest ih =>
    simp only [firstOccurrences, List.nodup_cons]
    exact ⟨by simp, ih.filter _⟩

theorem firstOccurrences_sublist (l : List State) : List.Sublist (firstOccurrences l) l := by
  induction l with
  | nil => simp [firstOccurrences]
  | cons x rest ih =>
    simp only [firstOccurrences]
    exact List.Sublist.cons₂ x ((List.filter_sublist _).trans ih)

theorem firstOccurrences_cons (x : State) (rest : List State) :
    firstOccurrences (x :: rest)
      = x :: (firstOccurrences rest).filter fun y => decide (y ≠ x) := rfl

theorem filter_firstOccurrences (p : State → Bool) (l : List State) :
    (firstOccurrences l).filter p = firstOccurrences (l.filter p) := by
  induction l with
  | nil => simp [firstOccurrences]
  | cons x rest ih =>
    cases hp : p x with
    | true =>
      rw [firstOccurrences_cons, List.filter_cons_of_pos hp, List.filter_cons_of_pos hp,
        firstOccurrences_cons, ← ih, List.filter_filter, List.filter_filter]
      congr 1
      apply List.filter_congr
      intro y _
      exact Bool.and_comm _ _
    | false =>
      have hp' : ¬ p x = true := by simp [hp]
      rw [firstOccurrences_cons, List.filter_cons_of_neg hp', List.filter_cons_of_neg hp',
        ← ih, List.filter_filter]
      apply List.filter_congr
      intro y _
      by_cases hy : y = x
      · simp [hy, hp]
      · simp [hy]

theorem firstOccurrences_append (l more : List State) :
    firstOccurrences (l ++ more)
      = firstOccurrences l ++ (firstOccurrences more).filter fun s => decide (s ∉ l) := by
  induction l with
  | nil => simp [firstOccurrences]
  | cons x rest ih =>
    rw [List.cons_append, firstOccurrences_cons, firstOccurrences_cons, ih,
      List.filter_append, List.filter_filter, List.cons_append]
    congr 2
    apply List.filter_congr
    intro y _
    by_cases hy : y = x
    · simp [hy]
    · simp [hy]

theorem foldl_visit_fst (l : List State) (acc : States × List State) :
    (l.foldl GetAllStates.visit acc).1
      = acc.1 ++ (firstOccurrences l).filter
          fun s => !s.IsWildCard && decide (s ∉ acc.2) := by
  induction l generalizing acc with
  | nil => simp [firstOccurrences]
  | cons x rest ih =>
    rw [List.foldl_cons, ih, firstOccurrences_cons]
    by_cases hseen : x ∈ acc.2
    · have hvisit : GetAllStates.visit acc x = acc := by
        simp [GetAllStates.visit, hseen]
      have hd : decide (x ∉ acc.2) = false := by simp [hseen]
      rw [hvisit]
      simp only [List.filter_cons, hd, Bool.and_false, Bool.false_eq_true, if_false,
        List.filter_filter]
      congr 1
      apply List.filter_congr
      intro y _
      by_cases hy : y = x
      · simp [hy, hseen]
      · simp [hy]
    · have hd : decide (x ∉ acc.2) = true := by simp [hseen]
      cases hw : x.IsWildCard with
      | true =>
        have hvisit : GetAllStates.visit acc x = (acc.1, x :: acc.2) := by
          simp [GetAllStates.visit, hseen, hw]
        rw [hvisit]
        simp only [List.filter_cons, hw, Bool.not_true, Bool.false_and, Bool.false_eq_true,
          if_false, List.filter_filter]
        congr 1
        apply List.filter_congr
        intro y _
        by_cases hy : y = x
        · simp [hy, hw]
        · simp [hy]
      | false =>
        have hvisit : GetAllStates.visit acc x = (acc.1 ++ [x], x :: acc.2) := by
          simp [GetAllStates.visit, hseen, hw]
        rw [hvisit]
        simp only [List.filter_cons, hw, hd, Bool.not_false, Bool.and_self, if_true,
          List.filter_filter, List.append_assoc, List.singleton_append]
        congr 2
        apply List.filter_congr
        intro y _
        by_cases hy : y = x
        · simp [hy]
        · simp [hy]

theorem Slice.length_read (s : Slice) (mem : Memory) : (s.read mem).length = s.len := by
  simp [Slice.read]

theorem visitRule_of_no_room (acc : (States × List State) × Memory) (rule : SliceRule)
    (hfull : rule.SourceStates.cap < rule.SourceStates.len + rule.DestinationStates.len) :
    GetAllStates.visitRule acc rule
      = (((rule.read acc.2).SourceStates ++ (rule.read acc.2).DestinationStates).foldl
          GetAllStates.visit acc.1, acc.2) := by
  have hnot : ¬ rule.SourceStates.len + (rule.DestinationStates.read acc.2).length
      ≤ rule.SourceStates.cap := by
    rw [Slice.length_read]
    omega
  simp [GetAllStates.visitRule, Slice.append, SliceRule.read, hnot]

theorem foldl_visitRule_of_no_room (rules : SliceRules) (acc : States × List State)
    (mem : Memory)
    (hfull : ∀ r ∈ rules, r.SourceStates.cap < r.SourceStates.len + r.DestinationStates.len) :
    rules.foldl GetAllStates.visitRule (acc, mem)
      = ((referencedStates (SliceRules.read rules mem)).foldl GetAllStates.visit acc,
          mem) := by
  induction rules generalizing acc with
  | nil => simp [SliceRules.read, referencedStates]
  | cons r rest ih =>
    have hr := hfull r (List.mem_cons_self _ _)
    have hrest : ∀ x ∈ rest,
        x.SourceStates.cap < x.SourceStates.len + x.DestinationStates.len :=
      fun x hx => hfull x (List.mem_cons_of_mem _ hx)
    rw [List.foldl_cons, visitRule_of_no_room _ r hr, ih _ hrest]
    simp [SliceRules.read, referencedStates, List.foldl_append]

theorem foldl_visit_eq_spec (trs : TransitionRules) :
    ((referencedStates trs).foldl GetAllStates.visit ([], [])).1 = allStatesSpec trs := by
  rw [foldl_visit_fst, allStatesSpec, ← filter_firstOccurrences]
  simp

/-- When no source slice has room for its rule's destination states behind it, `append`
writes nothing: `GetAllStates` leaves the memory as it was and returns the reference
definition on the elements of the table. -/
theorem GetAllStates_of_full_sources (rules : SliceRules) (mem : Memory)
    (hfull : ∀ r ∈ rules, r.SourceStates.cap < r.SourceStates.len + r.DestinationStates.len) :
    StateMachine.GetAllStates rules mem
      = (allStatesSpec (SliceRules.read rules mem), mem) := by
  simp only [StateMachine.GetAllStates, foldl_visitRule_of_no_room rules _ mem hfull,
    foldl_visit_eq_spec]

theorem mem_allStatesSpec (trs : TransitionRules) (s : State) :
    s ∈ allStatesSpec trs
      ↔ s ≠ State.wildcard ∧ ∃ r ∈ trs, s ∈ r.SourceStates ∨ s ∈ r.DestinationStates := by
  rw [allStatesSpec, mem_firstOccurrences, List.mem_filter, mem_referencedStates]
  constructor
  · rintro ⟨hex, hw⟩
    refine ⟨?_, hex⟩
    rintro rfl
    simp [State.IsWildCard] at hw
  · rintro ⟨hne, hex⟩
    refine ⟨hex, ?_⟩
    cases s with
    | wildcard => exact absurd rfl hne
    | concrete id => simp [State.IsWildCard]

/-- C11, the code at a failing input — two rules whose sources are cut from one array
`backing = [A, B, C]`: `backing[:1]` to `[X]` and `backing[1:2]` to `[Y]`.  The table
holds the states `A, X, B, Y`, which is what the reference definition gives; the `append`
of the first rule writes `X` over `B` in `backing`, and `GetAllStates` returns
`[A, X, Y]`, without the state `B` of the second rule's source. -/
theorem GetAllStates_loses_state :
    SliceRules.read sharedRules sharedMemory
        = [ { SourceStates := [State.concrete "A"], Transition := Publish,
              DestinationStates := [State.concrete "X"] },
            { SourceStates := [State.concrete "B"], Transition := Archive,
              DestinationStates := [State.concrete "Y"] } ] ∧
      allStatesSpec (SliceRules.read sharedRules sharedMemory)
        = [State.concrete "A", State.concrete "X", State.concrete "B", State.concrete "Y"] ∧
      (StateMachine.GetAllStates sharedRules sharedMemory).1
        = [State.concrete "A", State.concrete "X", State.concrete "Y"] ∧
      SliceRules.read sharedRules (StateMachine.GetAllStates sharedRules sharedMemory).2
        = [ { SourceStates := [State.concrete "A"], Transition := Publish,
              DestinationStates := [State.concrete "X"] },
            { SourceStates := [State.concrete "X"], Transition := Archive,
              DestinationStates := [State.concrete "Y"] } ] := by
  decide

/-! ## Wildcards, empty source sets and repeated runs -/

theorem Run_transitionRules [Stateful σ ε] (logic : Logic σ ε α) (sm : StateMachine σ)
    (transition : Transition) (transitionArguments : α) :
    (sm.Run logic transition transitionArguments).sm.transitionRules
      = sm.transitionRules := by
  simp only [StateMachine.Run]
  split
  · rfl
  · split
    · rfl
    · split
      · rfl
      · split
        · rfl
        · split <;> rfl

theorem Run_invokes_logic [Stateful σ ε] (logic : Logic σ ε α) (sm : StateMachine σ)
    (transition : Transition) (transitionArguments : α) (transitionRule : TransitionRule)
    (hfind : TransitionRules.Find sm.transitionRules transition = some transitionRule)
    (hsrc : transitionRule.IsAllowedToRun (Stateful.State sm.StatefulObject) = true) :
    Call.Transition transition transitionArguments
      ∈ (sm.Run logic transition transitionArguments).calls := by
  rcases hl : logic transition transitionArguments with ⟨newState, _ | e⟩
  · cases hdst : transitionRule.IsAllowedToTransfer newState with
    | false =>
      rw [Run_of_destination_rejected logic sm transition transitionArguments
        transitionRule newState hfind hsrc hl hdst]
      simp
    | true =>
      rw [Run_of_commit logic sm transition transitionArguments transitionRule newState
        hfind hsrc hl hdst]
      simp
  · rw [Run_of_logic_error logic sm transition transitionArguments transitionRule
      newState e hfind hsrc hl]
    simp

/-- C12, counterexample — a `Run` that fails with `CannotRunFromState` although the first
rule registered for the transition has the wildcard in its source set: the source check
of `Archive` passes, and the logic of `Archive` hands back that error, which `Run` returns
as it is. -/
theorem wildcard_source_cannot_run :
    TransitionRules.Find draftMachine.transitionRules Archive = some archiveRule ∧
      State.wildcard ∈ archiveRule.SourceStates ∧
      (draftMachine.Run forgingLogic Archive "args").err
        = some (Error.CannotRunFromStateError draftMachine archiveRule) := by
  decide

/-- C12, amended — Wildcard as source: when the first rule registered for the transition
has the wildcard in its source set, then whatever the entity's current state `Run` passes
source validation, so that the logic is invoked and a `CannotRunFromState` error comes out
of `Run` only as the error the logic or `SetState` returned; the transition is listed by
`GetAvailableTransitions`; and the destination check still applies, a candidate the
destination set does not allow being rejected with `CannotTransferToState`. -/
theorem wildcard_source_allows [Stateful σ ε] (logic : Logic σ ε α) (sm : StateMachine σ)
    (transition : Transition) (transitionArguments : α) (transitionRule : TransitionRule)
    (hrule : IsFirstRuleFor sm.transitionRules transition transitionRule)
    (hwild : State.wildcard ∈ transitionRule.SourceStates) :
    Call.Transition transition transitionArguments
        ∈ (sm.Run logic transition transitionArguments).calls ∧
    (∀ machine r, (sm.Run logic transition transitionArguments).err
        = some (Error.CannotRunFromStateError machine r) →
      (logic transition transitionArguments).2
          = some (Error.CannotRunFromStateError machine r) ∨
        ∃ s, logic transition transitionArguments = (s, none) ∧
          (Stateful.SetState sm.StatefulObject s).2
            = some (Error.CannotRunFromStateError machine r)) ∧
    transition ∈ sm.GetAvailableTransitions ∧
    (∀ s : State, logic transition transitionArguments = (s, none) →
      s ∉ transitionRule.DestinationStates →
      State.wildcard ∉ transitionRule.DestinationStates →
      (sm.Run logic transition transitionArguments).err
          = some (Error.CannotTransferToStateError s) ∧
        (sm.Run logic transition transitionArguments).sm = sm) := by
  have hfind := (Find_eq_some_iff _ _ _).mpr hrule
  have hsrc : transitionRule.IsAllowedToRun (Stateful.State sm.StatefulObject) = true :=
    (allows_iff _ _).mpr (Or.inr hwild)
  refine ⟨Run_invokes_logic logic sm transition transitionArguments transitionRule hfind
    hsrc, ?_, ?_, ?_⟩
  · intro machine r herr
    rcases Run_err_origin logic sm transition transitionArguments transitionRule _ hfind
      hsrc herr with h | ⟨s, _, _, h⟩ | ⟨s, hl, _, h⟩
    · exact Or.inl h
    · simp at h
    · exact Or.inr ⟨s, hl, h⟩
  · rw [GetAvailableTransitions_eq_spec, mem_availableTransitionsSpec]
    exact ⟨transitionRule, hrule.mem.1, hrule.mem.2, Or.inr hwild⟩
  · intro s hlogic hmem hnowild
    rw [Run_of_destination_rejected logic sm transition transitionArguments transitionRule s
      hfind hsrc hlogic ((allows_eq_false_iff _ _).mpr ⟨hmem, hnowild⟩)]
    exact ⟨rfl, rfl⟩

/-- Witness for C12 (amended): `Archive` has the wildcard as source; on a published
document it is available, its logic is invoked, and its candidate "deleted" is still
rejected by the destination set. -/
theorem wildcard_source_allows_witness :
    Call.Transition Archive "args"
        ∈ (publishedMachine.Run (exampleLogic : Logic Document String String)
            Archive "args").calls ∧
      Archive ∈ publishedMachine.GetAvailableTransitions ∧
      (publishedMachine.Run (exampleLogic : Logic Document String String)
          Archive "args").err
        = some (Error.CannotTransferToStateError (State.concrete "deleted")) :=
  have h := wildcard_source_allows (exampleLogic : Logic Document String String)
    publishedMachine Archive "args" archiveRule
    ⟨[_], _, rfl, rfl, by decide⟩ (by decide)
  ⟨h.1, h.2.2.1, (h.2.2.2 (State.concrete "deleted") rfl (by decide) (by decide)).1⟩

/-- C13, counterexample — a `Run` that fails with `CannotTransferToState` although the
first rule registered for the transition has the wildcard in its destination set: the
source check of `Reset` passes, its logic returns `("draft", nil)`, the destination check
passes, and the document's `SetState` hands back that error, which `Run` returns as it
is. -/
theorem wildcard_destination_cannot_transfer :
    TransitionRules.Find pickyMachine.transitionRules Reset
        = some { SourceStates := [State.concrete "published"], Transition := Reset,
                 DestinationStates := [State.wildcard] } ∧
      Stateful.State pickyMachine.StatefulObject = State.concrete "published" ∧
      (exampleLogic : Logic PickyDocument String String) Reset "args"
        = (State.concrete "draft", none) ∧
      (pickyMachine.Run exampleLogic Reset "args").err
        = some (Error.CannotTransferToStateError (State.concrete "draft")) := by
  decide

/-- C13, amended — Wildcard as destination: when the first rule registered for the
transition has the wildcard in its destination set, the source check has passed and the
logic returns `(s, nil)`, then `Run` passes destination validation: it calls `SetState(s)`
and returns exactly what that call reports, so that it returns `nil` with `s` committed
when `SetState` reports no error, and a `CannotTransferToState` error comes out of `Run`
only as the error `SetState` returned. -/
theorem wildcard_destination_accepts [Stateful σ ε] (logic : Logic σ ε α)
    (sm : StateMachine σ) (transition : Transition) (transitionArguments : α)
    (transitionRule : TransitionRule) (s : State)
    (hrule : IsFirstRuleFor sm.transitionRules transition transitionRule)
    (hwild : State.wildcard ∈ transitionRule.DestinationStates)
    (hsrc : Stateful.State sm.StatefulObject ∈ transitionRule.SourceStates
      ∨ State.wildcard ∈ transitionRule.SourceStates)
    (hlogic : logic transition transitionArguments = (s, none)) :
    sm.Run logic transition transitionArguments
        = { err := (Stateful.SetState sm.StatefulObject s).2,
            sm := { sm with StatefulObject := (Stateful.SetState sm.StatefulObject s).1 },
            calls := [Call.State, Call.Transition transition transitionArguments,
              Call.SetState s] } ∧
    ((Stateful.SetState sm.StatefulObject s).2 = none →
      (sm.Run logic transition transitionArguments).err = none ∧
        Stateful.State (sm.Run logic transition transitionArguments).sm.StatefulObject
          = s) ∧
    (∀ rejected : State, (sm.Run logic transition transitionArguments).err
        = some (Error.CannotTransferToStateError rejected) →
      (Stateful.SetState sm.StatefulObject s).2
        = some (Error.CannotTransferToStateError rejected)) := by
  have hfind := (Find_eq_some_iff _ _ _).mpr hrule
  have hrun := Run_of_commit logic sm transition transitionArguments transitionRule s hfind
    ((allows_iff _ _).mpr hsrc) hlogic ((allows_iff _ _).mpr (Or.inr hwild))
  refine ⟨hrun, ?_, ?_⟩
  · intro hset
    rw [hrun]
    exact ⟨hset, Stateful.commits _ _ hset⟩
  · intro rejected herr
    rw [hrun] at herr
    exact herr

/-- Witness for C13 (amended): `Reset` may go anywhere from "published"; its logic returns
"draft", which is committed. -/
theorem wildcard_destination_accepts_witness :
    (resetMachine.Run (exampleLogic : Logic Document String String) Reset "args").err = none ∧
      Stateful.State (resetMachine.Run (exampleLogic : Logic Document String String)
          Reset "args").sm.StatefulObject
        = State.concrete "draft" :=
  (wildcard_destination_accepts (exampleLogic : Logic Document String String) resetMachine
    Reset "args"
    { SourceStates := [State.concrete "published"], Transition := Reset,
      DestinationStates := [State.wildcard] }
    (State.concrete "draft")
    ⟨[], _, rfl, rfl, by simp⟩ (by decide) (Or.inl (by decide)) rfl).2.1 rfl

theorem availableTransitionsSpec_skip (current : State) (before after : TransitionRules)
    (transitionRule : TransitionRule) (hempty : transitionRule.SourceStates = []) :
    availableTransitionsSpec current (before ++ transitionRule :: after)
      = availableTransitionsSpec current (before ++ after) := by
  simp [availableTransitionsSpec, List.filter_append, List.filter_cons, hempty]

/-- C14 — Empty source set never runs: `AddTransition` with an empty source set registers
the rule like any other; when no earlier rule carries the handle, so that this is the
rule `Run` resolves, then whatever the entity, the arguments and the rules registered
later, `Run` fails with `CannotRunFromState`, the transition logic is not invoked, the
entity is unchanged, and `GetAvailableTransitions` is what it would be without the rule. -/
theorem empty_source_never_runs [Stateful σ ε] (logic : Logic σ ε α) (sm : StateMachine σ)
    (transition : Transition) (destinationStates : States) (later : TransitionRules)
    (o : σ) (transitionArguments : α)
    (hfresh : ∀ r ∈ sm.transitionRules, r.Transition ≠ transition) :
    (sm.AddTransition transition [] destinationStates).transitionRules
        = sm.transitionRules ++
            [{ SourceStates := [], Transition := transition,
               DestinationStates := destinationStates }] ∧
    StateMachine.Run logic
        { StatefulObject := o,
          transitionRules :=
            (sm.AddTransition transition [] destinationStates).transitionRules ++ later }
        transition transitionArguments
      = { err := some (Error.CannotRunFromStateError
            { StatefulObject := o,
              transitionRules :=
                (sm.AddTransition transition [] destinationStates).transitionRules ++ later }
            { SourceStates := [], Transition := transition,
              DestinationStates := destinationStates }),
          sm :=
            { StatefulObject := o,
              transitionRules :=
                (sm.AddTransition transition [] destinationStates).transitionRules ++ later },
          calls := [Call.State] } ∧
    StateMachine.GetAvailableTransitions
        ({ StatefulObject := o,
           transitionRules :=
            (sm.AddTransition transition [] destinationStates).transitionRules ++ later } :
          StateMachine σ)
      = StateMachine.GetAvailableTransitions
          ({ StatefulObject := o, transitionRules := sm.transitionRules ++ later } :
            StateMachine σ) := by
  have htable : (sm.AddTransition transition [] destinationStates).transitionRules ++ later
      = sm.transitionRules ++
          { SourceStates := [], Transition := transition,
            DestinationStates := destinationStates } :: later := by
    simp [StateMachine.AddTransition]
  refine ⟨rfl, ?_, ?_⟩
  · apply Run_of_source_rejected
    · rw [htable]
      exact Find_append_cons _ _ _ _ rfl hfresh
    · simp [TransitionRule.IsAllowedToRun, States.allows]
  · rw [GetAvailableTransitions_eq_spec, GetAvailableTransitions_eq_spec]
    simp only [htable]
    exact availableTransitionsSpec_skip _ _ _ _ rfl

/-- Witness for C14: `Unpublish` registered with an empty source set on the draft machine,
then run on a published document. -/
theorem empty_source_never_runs_witness :
    (StateMachine.Run exampleLogic
        ({ StatefulObject := { state := State.concrete "published" },
           transitionRules :=
            (draftMachine.AddTransition Unpublish [] [State.concrete "draft"]).transitionRules
              ++ [] } : StateMachine Document)
        Unpublish "args").calls = [Call.State] :=
  congrArg RunResult.calls
    (empty_source_never_runs exampleLogic draftMachine Unpublish [State.concrete "draft"] []
      { state := State.concrete "published" } "args" (by decide)).2.1

/-- C15, counterexample — a rule for `Publish` with source `{"draft"}` and no wildcard, a
`Run(Publish)` that succeeds and commits "published", which is not in that source set,
and a second `Run(Publish)` that succeeds as well: the table holds an earlier rule for
`Publish` that allows "published", and `Run` consults that one. -/
theorem repeat_run_not_blocked :
    ({ SourceStates := [State.concrete "draft"], Transition := Publish,
       DestinationStates := [State.concrete "published"] } : TransitionRule)
        ∈ repeatMachine.transitionRules ∧
      State.wildcard ∉ [State.concrete "draft"] ∧
      (repeatMachine.Run exampleLogic Publish "args").err = none ∧
      Stateful.State (repeatMachine.Run exampleLogic Publish "args").sm.StatefulObject
        = State.concrete "published" ∧
      State.concrete "published" ∉ [State.concrete "draft"] ∧
      (StateMachine.Run exampleLogic (repeatMachine.Run exampleLogic Publish "args").sm
        Publish "again").err = none := by
  decide

/-- C15, amended — leaving the source set blocks a repeat, for the rule `Run` resolves:
when the first rule registered for the transition has no wildcard in its source set and
`Run` succeeds and commits a state outside that source set, then the next `Run` of the
same transition on the machine, with any arguments, fails with `CannotRunFromState`
without invoking the logic and leaves the entity as it was, in the committed state. -/
theorem repeat_run_rejected [Stateful σ ε] (logic : Logic σ ε α) (sm : StateMachine σ)
    (transition : Transition) (transitionArguments : α) (transitionRule : TransitionRule)
    (hrule : IsFirstRuleFor sm.transitionRules transition transitionRule)
    (hwild : State.wildcard ∉ transitionRule.SourceStates)
    (hok : (sm.Run logic transition transitionArguments).err = none)
    (hleft : Stateful.State (sm.Run logic transition transitionArguments).sm.StatefulObject
      ∉ transitionRule.SourceStates) :
    ∀ again : α,
      StateMachine.Run logic (sm.Run logic transition transitionArguments).sm transition again
        = { err := some (Error.CannotRunFromStateError
              (sm.Run logic transition transitionArguments).sm transitionRule),
            sm := (sm.Run logic transition transitionArguments).sm,
            calls := [Call.State] } := by
  intro again
  have _ := hok
  have hfind : TransitionRules.Find
      (sm.Run logic transition transitionArguments).sm.transitionRules transition
        = some transitionRule := by
    rw [Run_transitionRules]
    exact (Find_eq_some_iff _ _ _).mpr hrule
  exact Run_of_source_rejected logic _ transition again transitionRule hfind
    ((allows_eq_false_iff _ _).mpr ⟨hleft, hwild⟩)

/-- Witness for C15 (amended): the spec's scenario, `Publish` twice on a draft document. -/
theorem repeat_run_rejected_witness :
    (StateMachine.Run exampleLogic (draftMachine.Run exampleLogic Publish "args").sm
      Publish "again").err
      = some (Error.CannotRunFromStateError
          (draftMachine.Run exampleLogic Publish "args").sm
          { SourceStates := [State.concrete "draft"], Transition := Publish,
            DestinationStates := [State.concrete "published"] }) :=
  congrArg RunResult.err
    (repeat_run_rejected exampleLogic draftMachine Publish "args"
      { SourceStates := [State.concrete "draft"], Transition := Publish,
        DestinationStates := [State.concrete "published"] }
      ⟨[], _, rfl, rfl, by simp⟩ (by decide) (by decide) (by decide) "again")

/-! ## First rule wins -/

theorem Find_append_of_some (trs more : TransitionRules) (transition : Transition)
    (transitionRule : TransitionRule)
    (h : TransitionRules.Find trs transition = some transitionRule) :
    TransitionRules.Find (trs ++ more) transition = some transitionRule := by
  obtain ⟨before, after, heq, hrule, hbefore⟩ := (Find_eq_some_iff _ _ _).mp h
  rw [heq, List.append_assoc, List.cons_append]
  exact Find_append_cons before (after ++ more) transitionRule transition hrule hbefore

theorem exists_first_rule_iff (trs : TransitionRules) (transition : Transition) :
    (∃ first, IsFirstRuleFor trs transition first)
      ↔ ∃ r ∈ trs, r.Transition = transition := by
  constructor
  · rintro ⟨first, hfirst⟩
    exact ⟨first, hfirst.mem.1, hfirst.mem.2⟩
  · rintro ⟨r, hr, hrt⟩
    cases hfind : TransitionRules.Find trs transition with
    | none => exact absurd hrt ((Find_eq_none_iff _ _).mp hfind r hr)
    | some first => exact ⟨first, (Find_eq_some_iff _ _ _).mp hfind⟩

theorem Run_same_rule [Stateful σ ε] (logic : Logic σ ε α) (sm extended : StateMachine σ)
    (transition : Transition) (transitionArguments : α) (transitionRule : TransitionRule)
    (hentity : extended.StatefulObject = sm.StatefulObject)
    (hfind : TransitionRules.Find sm.transitionRules transition = some transitionRule)
    (hfind' : TransitionRules.Find extended.transitionRules transition
      = some transitionRule) :
    (extended.Run logic transition transitionArguments).sm.StatefulObject
        = (sm.Run logic transition transitionArguments).sm.StatefulObject ∧
    (extended.Run logic transition transitionArguments).calls
        = (sm.Run logic transition transitionArguments).calls ∧
    ((extended.Run logic transition transitionArguments).err = none
        ↔ (sm.Run logic transition transitionArguments).err = none) ∧
    (transitionRule.IsAllowedToRun (Stateful.State sm.StatefulObject) = false →
        (sm.Run logic transition transitionArguments).err
          = some (Error.CannotRunFromStateError sm transitionRule) ∧
        (extended.Run logic transition transitionArguments).err
          = some (Error.CannotRunFromStateError extended transitionRule)) ∧
    (transitionRule.IsAllowedToRun (Stateful.State sm.StatefulObject) = true →
        (extended.Run logic transition transitionArguments).err
          = (sm.Run logic transition transitionArguments).err) := by
  cases hsrc : transitionRule.IsAllowedToRun (Stateful.State sm.StatefulObject) with
  | false =>
    have hsrc' : transitionRule.IsAllowedToRun (Stateful.State extended.StatefulObject)
        = false := by rw [hentity]; exact hsrc
    rw [Run_of_source_rejected logic sm transition transitionArguments transitionRule
        hfind hsrc,
      Run_of_source_rejected logic extended transition transitionArguments transitionRule
        hfind' hsrc']
    exact ⟨hentity, rfl, by simp, fun _ => ⟨rfl, rfl⟩, fun h => Bool.noConfusion h⟩
  | true =>
    have hsrc' : transitionRule.IsAllowedToRun (Stateful.State extended.StatefulObject)
        = true := by rw [hentity]; exact hsrc
    rcases hl : logic transition transitionArguments with ⟨newState, _ | e⟩
    · cases hdst : transitionRule.IsAllowedToTransfer newState with
      | false =>
        rw [Run_of_destination_rejected logic sm transition transitionArguments
            transitionRule newState hfind hsrc hl hdst,
          Run_of_destination_rejected logic extended transition transitionArguments
            transitionRule newState hfind' hsrc' hl hdst]
        exact ⟨hentity, rfl, Iff.rfl, fun h => Bool.noConfusion h, fun _ => rfl⟩
      | true =>
        rw [Run_of_commit logic sm transition transitionArguments transitionRule newState
            hfind hsrc hl hdst,
          Run_of_commit logic extended transition transitionArguments transitionRule
            newState hfind' hsrc' hl hdst, hentity]
        exact ⟨rfl, rfl, Iff.rfl, fun h => Bool.noConfusion h, fun _ => rfl⟩
    · rw [Run_of_logic_error logic sm transition transitionArguments transitionRule
          newState e hfind hsrc hl,
        Run_of_logic_error logic extended transition transitionArguments transitionRule
          newState e hfind' hsrc' hl]
      exact ⟨hentity, rfl, Iff.rfl, fun h => Bool.noConfusion h, fun _ => rfl⟩

/-- C16, counterexample — registering a further rule changes the result of `Run`: on a
published document `Publish` has a rule and is refused at source validation; after
`AddTransition(Unpublish, {"published"}, {"draft"})` it is refused in the same way, but the
`CannotRunFromState` error carries the machine, whose table now holds the added rule, so
that the two errors differ. -/
theorem added_rule_changes_error :
    TransitionRules.Find publishedMachine.transitionRules Publish
        = some { SourceStates := [State.concrete "draft"], Transition := Publish,
                 DestinationStates := [State.concrete "published"] } ∧
      ((publishedMachine.AddTransition Unpublish [State.concrete "published"]
          [State.concrete "draft"]).Run
            (exampleLogic : Logic Document String String) Publish "args").err
        ≠ (publishedMachine.Run (exampleLogic : Logic Document String String)
            Publish "args").err := by
  decide

/-- C16, amended — First rule wins and duplicates are accepted: `AddTransition` appends the
rule at the end of the table, also when the transition already has a rule.  `Run` is
decided by the first rule in insertion order that carries the handle, whatever rules
follow it: its source set decides whether `Run` stops with `CannotRunFromState` naming that
rule, and its destination set whether the candidate is rejected or handed to `SetState`.
When the table already holds a rule for a transition, registering any further rule leaves
`Run` of that transition as it was, for every entity state and arguments: the same
collaborator calls, the same entity afterwards, success exactly when it succeeded before,
and the same error, except that the `CannotRunFromState` error of a refused source check
carries the machine `Run` was called on, hence the table with the added rule. -/
theorem first_rule_wins [Stateful σ ε] (logic : Logic σ ε α) (sm : StateMachine σ)
    (added : Transition) (sourceStates destinationStates : States) :
    ((sm.AddTransition added sourceStates destinationStates).transitionRules
        = sm.transitionRules ++
            [{ SourceStates := sourceStates, Transition := added,
               DestinationStates := destinationStates }] ∧
      (sm.AddTransition added sourceStates destinationStates).StatefulObject
        = sm.StatefulObject) ∧
    (∀ transition : Transition,
      (∃ first, IsFirstRuleFor sm.transitionRules transition first)
        ↔ ∃ r ∈ sm.transitionRules, r.Transition = transition) ∧
    (∀ (transition : Transition) (transitionArguments : α) (first : TransitionRule),
      IsFirstRuleFor sm.transitionRules transition first →
      (¬ (Stateful.State sm.StatefulObject ∈ first.SourceStates
            ∨ State.wildcard ∈ first.SourceStates) →
        sm.Run logic transition transitionArguments
          = { err := some (Error.CannotRunFromStateError sm first), sm := sm,
              calls := [Call.State] }) ∧
      ((Stateful.State sm.StatefulObject ∈ first.SourceStates
            ∨ State.wildcard ∈ first.SourceStates) →
        (∀ s e, logic transition transitionArguments = (s, some e) →
          sm.Run logic transition transitionArguments
            = { err := some e, sm := sm,
                calls := [Call.State, Call.Transition transition transitionArguments] }) ∧
        (∀ s, logic transition transitionArguments = (s, none) →
          ¬ (s ∈ first.DestinationStates ∨ State.wildcard ∈ first.DestinationStates) →
          sm.Run logic transition transitionArguments
            = { err := some (Error.CannotTransferToStateError s), sm := sm,
                calls := [Call.State, Call.Transition transition transitionArguments] }) ∧
        (∀ s, logic transition transitionArguments = (s, none) →
          (s ∈ first.DestinationStates ∨ State.wildcard ∈ first.DestinationStates) →
          sm.Run logic transition transitionArguments
            = { err := (Stateful.SetState sm.StatefulObject s).2,
                sm := { sm with
                  StatefulObject := (Stateful.SetState sm.StatefulObject s).1 },
                calls := [Call.State, Call.Transition transition transitionArguments,
                  Call.SetState s] }))) ∧
    (∀ (transition : Transition) (transitionArguments : α) (first : TransitionRule),
      IsFirstRuleFor sm.transitionRules transition first →
      IsFirstRuleFor (sm.AddTransition added sourceStates destinationStates).transitionRules
          transition first ∧
      Stateful.State ((sm.AddTransition added sourceStates destinationStates).Run logic
          transition transitionArguments).sm.StatefulObject
        = Stateful.State (sm.Run logic transition transitionArguments).sm.StatefulObject ∧
      ((sm.AddTransition added sourceStates destinationStates).Run logic
          transition transitionArguments).sm.StatefulObject
        = (sm.Run logic transition transitionArguments).sm.StatefulObject ∧
      ((sm.AddTransition added sourceStates destinationStates).Run logic
          transition transitionArguments).calls
        = (sm.Run logic transition transitionArguments).calls ∧
      (((sm.AddTransition added sourceStates destinationStates).Run logic
          transition transitionArguments).err = none
        ↔ (sm.Run logic transition transitionArguments).err = none) ∧
      (¬ (Stateful.State sm.StatefulObject ∈ first.SourceStates
            ∨ State.wildcard ∈ first.SourceStates) →
        (sm.Run logic transition transitionArguments).err
          = some (Error.CannotRunFromStateError sm first) ∧
        ((sm.AddTransition added sourceStates destinationStates).Run logic
            transition transitionArguments).err
          = some (Error.CannotRunFromStateError
              (sm.AddTransition added sourceStates destinationStates) first)) ∧
      ((Stateful.State sm.StatefulObject ∈ first.SourceStates
            ∨ State.wildcard ∈ first.SourceStates) →
        ((sm.AddTransition added sourceStates destinationStates).Run logic
            transition transitionArguments).err
          = (sm.Run logic transition transitionArguments).err)) := by
  refine ⟨⟨rfl, rfl⟩, fun transition => exists_first_rule_iff _ _, ?_, ?_⟩
  · intro transition transitionArguments first hfirst
    have hfind := (Find_eq_some_iff _ _ _).mpr hfirst
    refine ⟨fun hnot => ?_, fun hallows => ⟨fun s e hl => ?_, fun s hl hnot => ?_,
      fun s hl hdst => ?_⟩⟩
    · exact Run_of_source_rejected logic sm transition transitionArguments first hfind
        ((allows_eq_false_iff _ _).mpr ⟨fun h => hnot (Or.inl h), fun h => hnot (Or.inr h)⟩)
    · exact Run_of_logic_error logic sm transition transitionArguments first s e hfind
        ((allows_iff _ _).mpr hallows) hl
    · exact Run_of_destination_rejected logic sm transition transitionArguments first s
        hfind ((allows_iff _ _).mpr hallows) hl
        ((allows_eq_false_iff _ _).mpr ⟨fun h => hnot (Or.inl h), fun h => hnot (Or.inr h)⟩)
    · exact Run_of_commit logic sm transition transitionArguments first s hfind
        ((allows_iff _ _).mpr hallows) hl ((allows_iff _ _).mpr hdst)
  · intro transition transitionArguments first hfirst
    have hfind := (Find_eq_some_iff _ _ _).mpr hfirst
    have hfind' : TransitionRules.Find
        (sm.AddTransition added sourceStates destinationStates).transitionRules transition
          = some first :=
      Find_append_of_some _ _ _ _ hfind
    have h := Run_same_rule logic sm (sm.AddTransition added sourceStates destinationStates)
      transition transitionArguments first rfl hfind hfind'
    refine ⟨(Find_eq_some_iff _ _ _).mp hfind', congrArg Stateful.State h.1, h.1, h.2.1,
      h.2.2.1, fun hnot => ?_, fun hallows => ?_⟩
    · exact h.2.2.2.1 ((allows_eq_false_iff _ _).mpr
        ⟨fun x => hnot (Or.inl x), fun x => hnot (Or.inr x)⟩)
    · exact h.2.2.2.2 ((allows_iff _ _).mpr hallows)

/-- Witness for C16 (amended): a second rule for `Publish` is registered on the draft
machine; the first still decides, and `Publish` commits "published" as before. -/
theorem first_rule_wins_witness :
    Stateful.State ((draftMachine.AddTransition Publish [State.concrete "published"]
        [State.concrete "archived"]).Run (exampleLogic : Logic Document String String)
          Publish "args").sm.StatefulObject
      = Stateful.State (draftMachine.Run (exampleLogic : Logic Document String String)
          Publish "args").sm.StatefulObject :=
  ((first_rule_wins (exampleLogic : Logic Document String String) draftMachine Publish
      [State.concrete "published"] [State.concrete "archived"]).2.2.2 Publish "args"
    { SourceStates := [State.concrete "draft"], Transition := Publish,
      DestinationStates := [State.concrete "published"] }
    ⟨[], _, rfl, rfl, by simp⟩).2.1

/-! ## `GetAllStates` and the states a machine can reach -/

theorem Run_entity_cases [Stateful σ ε] (logic : Logic σ ε α) (sm : StateMachine σ)
    (transition : Transition) (transitionArguments : α) :
    ((sm.Run logic transition transitionArguments).err ≠ none ∧
        (sm.Run logic transition transitionArguments).sm = sm) ∨
    (∃ (transitionRule : TransitionRule) (s : State),
        transitionRule ∈ sm.transitionRules ∧
        transitionRule.IsAllowedToTransfer s = true ∧
        (sm.Run logic transition transitionArguments).err
          = (Stateful.SetState sm.StatefulObject s).2 ∧
        (sm.Run logic transition transitionArguments).sm.StatefulObject
          = (Stateful.SetState sm.StatefulObject s).1) := by
  rcases Run_cases logic sm transition transitionArguments with
    ⟨_, hrun⟩ | ⟨r, _, _, hrun⟩ | ⟨r, s, e, _, _, _, hrun⟩ |
    ⟨r, s, _, _, _, _, hrun⟩ | ⟨r, s, hfind, _, _, hdst, hrun⟩
  · left; rw [hrun]; simp
  · left; rw [hrun]; simp
  · left; rw [hrun]; simp
  · left; rw [hrun]; simp
  · right
    rw [hrun]
    exact ⟨r, s, ((Find_eq_some_iff _ _ _).mp hfind).mem.1, hdst, rfl, rfl⟩

/-- The reference definition covers the committed states: without wildcard destinations,
the state after a successful `Run` is among the states of the table. -/
theorem Run_state_mem_allStatesSpec [Stateful σ ε] (logic : Logic σ ε α)
    (sm : StateMachine σ)
    (hconcrete : ∀ r ∈ sm.transitionRules, State.wildcard ∉ r.DestinationStates)
    (transition : Transition) (transitionArguments : α)
    (hok : (sm.Run logic transition transitionArguments).err = none) :
    Stateful.State (sm.Run logic transition transitionArguments).sm.StatefulObject
      ∈ allStatesSpec sm.transitionRules := by
  rcases Run_entity_cases logic sm transition transitionArguments with
    ⟨herr, _⟩ | ⟨transitionRule, s, hmem, hdst, herr, hentity⟩
  · exact absurd hok herr
  · have hset : (Stateful.SetState sm.StatefulObject s).2 = none := by
      rw [← herr]; exact hok
    rw [hentity, Stateful.commits _ _ hset, mem_allStatesSpec]
    have hin : s ∈ transitionRule.DestinationStates := by
      rcases (allows_iff _ _).mp hdst with h | h
      · exact h
      · exact absurd h (hconcrete _ hmem)
    refine ⟨?_, transitionRule, hmem, Or.inr hin⟩
    rintro rfl
    exact hconcrete _ hmem hin

theorem Run_keeps_state_in_allStatesSpec [Stateful σ ε] (logic : Logic σ ε α)
    (sm : StateMachine σ)
    (hconcrete : ∀ r ∈ sm.transitionRules, State.wildcard ∉ r.DestinationStates)
    (hfaithful : ∀ (o : σ) (s : State), (Stateful.SetState o s).2 ≠ none →
      Stateful.State (Stateful.SetState o s).1 = Stateful.State o)
    (hstart : Stateful.State sm.StatefulObject ∈ allStatesSpec sm.transitionRules)
    (transition : Transition) (transitionArguments : α) :
    Stateful.State (sm.Run logic transition transitionArguments).sm.StatefulObject
      ∈ allStatesSpec sm.transitionRules := by
  cases herr : (sm.Run logic transition transitionArguments).err with
  | none => exact Run_state_mem_allStatesSpec logic sm hconcrete _ _ herr
  | some e =>
    rcases Run_entity_cases logic sm transition transitionArguments with
      ⟨_, hsame⟩ | ⟨transitionRule, s, _, _, herr', hentity⟩
    · rw [hsame]; exact hstart
    · have hset : (Stateful.SetState sm.StatefulObject s).2 ≠ none := by
        rw [← herr', herr]; simp
      rw [hentity, hfaithful _ _ hset]
      exact hstart

/-- The reference definition is an invariant of any sequence of `Run` calls: without
wildcard destinations and with a `SetState` that leaves the state as it was whenever it
reports an error, an entity that starts in a state of the table stays in one. -/
theorem RunSequence_invariant [Stateful σ ε] (logic : Logic σ ε α)
    (hfaithful : ∀ (o : σ) (s : State), (Stateful.SetState o s).2 ≠ none →
      Stateful.State (Stateful.SetState o s).1 = Stateful.State o)
    (runs : List (Transition × α)) (sm : StateMachine σ)
    (hconcrete : ∀ r ∈ sm.transitionRules, State.wildcard ∉ r.DestinationStates)
    (hstart : Stateful.State sm.StatefulObject ∈ allStatesSpec sm.transitionRules) :
    (RunSequence logic sm runs).transitionRules = sm.transitionRules ∧
      Stateful.State (RunSequence logic sm runs).StatefulObject
        ∈ allStatesSpec sm.transitionRules := by
  induction runs generalizing sm with
  | nil => exact ⟨rfl, hstart⟩
  | cons run rest ih =>
    obtain ⟨transition, transitionArguments⟩ := run
    have hrules := Run_transitionRules logic sm transition transitionArguments
    have hstep := Run_keeps_state_in_allStatesSpec logic sm hconcrete hfaithful hstart
      transition transitionArguments
    have hnext := ih (sm.Run logic transition transitionArguments).sm
      (by rw [hrules]; exact hconcrete) (by rw [hrules]; exact hstep)
    simp only [RunSequence]
    rw [hrules] at hnext
    exact hnext

/-- C17, the code at a failing input — two rules cut from one array
`all = ["draft", "published", "archived"]`: `Archive` from `all[:1]` to `all[2:]` and
`Publish` from `all[:1]` to `all[1:2]`; no destination set holds the wildcard.  `Run` of
`Publish` on a draft document succeeds and commits "published", a state of the table by
the reference definition; `GetAllStates` then returns `["draft", "archived"]`, because the
`append` of the first rule has written "archived" over "published" in `all`. -/
theorem committed_state_not_listed :
    (∀ r ∈ lifecycleMachine.transitionRules, State.wildcard ∉ r.DestinationStates) ∧
      (lifecycleMachine.Run (exampleLogic : Logic Document String String)
          Publish "args").err = none ∧
      Stateful.State (lifecycleMachine.Run (exampleLogic : Logic Document String String)
          Publish "args").sm.StatefulObject = State.concrete "published" ∧
      State.concrete "published" ∈ allStatesSpec lifecycleMachine.transitionRules ∧
      (StateMachine.GetAllStates lifecycleRules lifecycleMemory).1
        = [State.concrete "draft", State.concrete "archived"] ∧
      State.concrete "published"
        ∉ (StateMachine.GetAllStates lifecycleRules lifecycleMemory).1 := by
  decide

theorem allStatesSpec_append (trs : TransitionRules) (transition : Transition)
    (sourceStates destinationStates : States) :
    allStatesSpec (trs ++
        [{ SourceStates := sourceStates, Transition := transition,
           DestinationStates := destinationStates }])
      = allStatesSpec trs ++
          firstOccurrences ((sourceStates ++ destinationStates).filter
            fun s => !s.IsWildCard && decide (s ∉ allStatesSpec trs)) := by
  simp only [allStatesSpec, referencedStates_append, referencedStates, List.append_nil,
    List.filter_append]
  rw [firstOccurrences_append, filter_firstOccurrences]
  congr 2
  rw [← List.filter_append, ← List.filter_append, List.filter_filter]
  apply List.filter_congr
  intro y _
  simp only [mem_firstOccurrences]
  exact Bool.and_comm _ _

/-- The reference definition grows by registration; so does `GetAllStates` as long as no
source slice has room for its rule's destination states behind it. -/
theorem GetAllStates_grows_of_full_sources (rules : SliceRules) (added : SliceRule)
    (mem : Memory)
    (hfull : ∀ r ∈ rules ++ [added],
      r.SourceStates.cap < r.SourceStates.len + r.DestinationStates.len) :
    (StateMachine.GetAllStates (rules ++ [added])
        (StateMachine.GetAllStates rules mem).2).1
      = (StateMachine.GetAllStates rules mem).1 ++
          firstOccurrences
            ((added.SourceStates.read mem ++ added.DestinationStates.read mem).filter
              fun s => !s.IsWildCard &&
                decide (s ∉ (StateMachine.GetAllStates rules mem).1)) := by
  have hrules : ∀ r ∈ rules,
      r.SourceStates.cap < r.SourceStates.len + r.DestinationStates.len :=
    fun r hr => hfull r (List.mem_append_left _ hr)
  rw [GetAllStates_of_full_sources rules mem hrules,
    GetAllStates_of_full_sources (rules ++ [added]) mem hfull]
  simp only [SliceRules.read, List.map_append, List.map_cons, List.map_nil]
  exact allStatesSpec_append _ _ _ _

/-- C18, the code at a failing input — two rules on `all = [P, Q, R]`: `Publish` from
`all[1:2]` to `[X]` and `Archive` from `all[:1]` to `[Y]`.  `GetAllStates` returns
`[Q, X, P, Y]`, and the `append` of the second rule has written `Y` over `Q`, the source of
the first.  After `AddTransition(Review, [Z], [])` the next `GetAllStates` returns
`[Y, X, P, Z]`, of which the earlier value is not an initial segment. -/
theorem GetAllStates_not_monotone :
    (StateMachine.GetAllStates growRules growMemory).1
        = [State.concrete "Q", State.concrete "X", State.concrete "P", State.concrete "Y"] ∧
      (StateMachine.AddTransition
          ({ StatefulObject := { state := State.concrete "P" },
             transitionRules := SliceRules.read growRules
              (StateMachine.GetAllStates growRules growMemory).2 } : StateMachine Document)
          Review
          (grownRule.SourceStates.read (StateMachine.GetAllStates growRules growMemory).2)
          (grownRule.DestinationStates.read
            (StateMachine.GetAllStates growRules growMemory).2)).transitionRules
        = SliceRules.read (growRules ++ [grownRule])
            (StateMachine.GetAllStates growRules growMemory).2 ∧
      (StateMachine.GetAllStates (growRules ++ [grownRule])
          (StateMachine.GetAllStates growRules growMemory).2).1
        = [State.concrete "Y", State.concrete "X", State.concrete "P", State.concrete "Z"] ∧
      ¬ ((StateMachine.GetAllStates growRules growMemory).1
          <+: (StateMachine.GetAllStates (growRules ++ [grownRule])
                (StateMachine.GetAllStates growRules growMemory).2).1) := by
  decide

end stateful
